import Mathlib

/-!
Verification of the PlanTable seating-plan core algorithm
(`apps/web/src/lib/algorithm.ts`) against its specification.

The TypeScript core is shallowly embedded below: guests, couples,
exclusions and tables become Lean structures, the placement loop becomes a
fold over an explicit `PlaceState`, and the two nondeterministic inputs of
the original (the unseeded `Math.random` used by the Fisher-Yates shuffle)
are made explicit as a stream of naturals.  Opaque string ids are modelled
by naturals; `generateId` (whose values are only ever compared for
equality within one run) is modelled by giving the honor table id 0 and
the i-th regular table id i+1.
-/

namespace PlanTable

/-- Role of a guest: `married` and `witness` qualify for the honor table. -/
inductive GuestRole where
  | married
  | witness
  | regular
deriving DecidableEq, Repr

/-- Guest record (`Guest` in `types`): optional last name and age, role. -/
structure Guest where
  id : Nat
  firstName : String
  lastName : Option String
  age : Option Int
  role : GuestRole
deriving DecidableEq, Repr

/-- Couple: unordered pair of guest ids that must share a table. -/
structure Couple where
  id : Nat
  guestAId : Nat
  guestBId : Nat
deriving DecidableEq, Repr

/-- Exclusion pair: two guests that should not share a table. -/
structure ExclusionConstraint where
  id : Nat
  guestAId : Nat
  guestBId : Nat
deriving DecidableEq, Repr

/-- Sorting criteria flags of the configuration. -/
structure SortingCriteria where
  byFamily : Bool
  byAge : Bool
  byRole : Bool
  random : Bool
deriving DecidableEq, Repr

/-- Plan configuration (table-shape metadata is irrelevant to the core). -/
structure PlanConfiguration where
  totalGuests : Nat
  numberOfTables : Nat
  seatsPerTable : Nat
  honorTableSeats : Nat
  sortingCriteria : SortingCriteria
deriving DecidableEq, Repr

/-- Table with its assigned guests; `number = 1` is the honor table. -/
structure Table where
  id : Nat
  number : Nat
  name : String
  guests : List Guest
  capacity : Nat
deriving DecidableEq, Repr

/-- Warning type tags declared by the `Warning` interface. -/
inductive WarningType where
  | exclusion_violated
  | family_split
  | age_mismatch
deriving DecidableEq, Repr

/-- Structured warning emitted by the placement engine. -/
structure Warning where
  type : WarningType
  message : String
  guestIds : List Nat
deriving DecidableEq, Repr

/-- Result of one generation run (the debug log, a plain string with
wall-clock timestamps, is presentation-only and not modelled). -/
structure SeatingPlanResult where
  success : Bool
  tables : List Table
  warnings : List Warning
  errors : List String
deriving DecidableEq, Repr

/-- Full input bundle of the algorithm. -/
structure AlgorithmInput where
  guests : List Guest
  couples : List Couple
  exclusions : List ExclusionConstraint
  configuration : PlanConfiguration
deriving DecidableEq, Repr

-- ============================================
-- UTILITY FUNCTIONS (algorithm.ts lines 16-62)
-- ============================================

/-- Character class matched by the JavaScript `\s` and removed by
`String.prototype.trim` (ASCII whitespace plus NBSP and BOM). -/
def isJsSpace (c : Char) : Bool :=
  c = ' ' || c = '\t' || c = '\n' || c = '\r' || c = '\x0b' || c = '\x0c' ||
  c = '\u00a0' || c = '\ufeff'

/-- Model of `String.prototype.trim`. -/
def jsTrim (s : String) : String :=
  ⟨((s.toList.dropWhile isJsSpace).reverse.dropWhile isJsSpace).reverse⟩

/-- Model of `String.prototype.toLowerCase` (ASCII lowering per char). -/
def jsToLower (s : String) : String :=
  ⟨s.toList.map Char.toLower⟩

/-- Normalization applied to family names: `toLowerCase().trim()`. -/
def normFamily (s : String) : String :=
  jsTrim (jsToLower s)

/-- Model of `getFullName`: the JS conditional treats an empty last name
as falsy and then returns the first name alone. -/
def getFullName (guest : Guest) : String :=
  match guest.lastName with
  | some l => if l = "" then guest.firstName else guest.firstName ++ " " ++ l
  | none => guest.firstName

/-- Model of `haveExclusion`: symmetric lookup over the exclusion list. -/
def haveExclusion (guestA guestB : Guest)
    (exclusions : List ExclusionConstraint) : Bool :=
  exclusions.any fun e =>
    (e.guestAId == guestA.id && e.guestBId == guestB.id) ||
    (e.guestAId == guestB.id && e.guestBId == guestA.id)

/-- Model of `getCouplePartner`: first couple containing the guest, then
the first guest carrying the other id (`null` becomes `none`). -/
def getCouplePartner (guest : Guest) (couples : List Couple)
    (allGuests : List Guest) : Option Guest :=
  match couples.find? (fun c => c.guestAId == guest.id || c.guestBId == guest.id) with
  | none => none
  | some couple =>
    let partnerId := if couple.guestAId = guest.id then couple.guestBId else couple.guestAId
    allGuests.find? (fun g => g.id == partnerId)

-- ============================================
-- VALIDATION (algorithm.ts lines 64-203)
-- ============================================

/-- Result of `validateConfiguration`. -/
structure ValidationResult where
  isValid : Bool
  errors : List String
deriving DecidableEq, Repr

/-- Insertion into a JS `Set` modelled on lists: keeps the first
occurrence, so the length of the list is the size of the set. -/
def insertIfAbsent (l : List Nat) (x : Nat) : List Nat :=
  if x ∈ l then l else l ++ [x]

/-- One step of the honor-set construction: a role-qualified guest adds
its own id and the id of its couple partner, when one exists. -/
def honorIdStep (input : AlgorithmInput) (s : List Nat) (g : Guest) : List Nat :=
  let s := insertIfAbsent s g.id
  match getCouplePartner g input.couples input.guests with
  | some partner => insertIfAbsent s partner.id
  | none => s

/-- Guests filtered for honor seating (role married or witness). -/
def honorRoleGuests (input : AlgorithmInput) : List Guest :=
  input.guests.filter fun g => g.role == .married || g.role == .witness

/-- Ids collected into `honorTableWithPartners` / `honorTableGuestIds`:
every guest with role married or witness plus that guest partner. -/
def honorGuestIds (input : AlgorithmInput) : List Nat :=
  (honorRoleGuests input).foldl (honorIdStep input) []

/-- Membership test of the `exclusionGraph` built by the validator: the
map only has keys for actual guest ids, so an edge from `aId` exists only
when `aId` is the id of some guest. -/
def exclusionGraphHas (guests : List Guest)
    (exclusions : List ExclusionConstraint) (aId bId : Nat) : Bool :=
  guests.any (fun g => g.id == aId) &&
  exclusions.any (fun e =>
    (e.guestAId == aId && e.guestBId == bId) ||
    (e.guestBId == aId && e.guestAId == bId))

/-- Error text of the honor-table capacity check. -/
def honorCapacityMessage (seats size : Nat) : String :=
  s!"La table d\x27honneur ne peut accueillir que {seats} personnes, " ++
  s!"mais {size} personnes doivent y être placées " ++
  "(témoins/mariés et leurs conjoints)."

/-- Error text of the couple/exclusion contradiction check. -/
def coupleConflictMessage (guestA guestB : Guest) : String :=
  s!"Conflit : {getFullName guestA} et {getFullName guestB} " ++
  "sont en couple mais ont une exclusion entre eux."

/-- Error text of the oversized couple-group check. -/
def coupleGroupMessage (names : String) (size cap : Nat) : String :=
  s!"Le groupe de couples ({names}) contient {size} personnes, " ++
  s!"mais la capacité maximale d\x27une table est de {cap}."

/-- Depth-first traversal of the couple graph (`dfs` inside
`findCoupleGroups`), made total with explicit fuel; the fuel used by
`findCoupleGroups` is large enough to never run out. -/
def coupleDfs (couples : List Couple) :
    Nat → Nat → List Nat × List Nat → List Nat × List Nat
  | 0, _, vg => vg
  | fuel + 1, gid, (visited, group) =>
    if gid ∈ visited then (visited, group)
    else
      couples.foldl
        (fun vg c =>
          let vg :=
            if c.guestAId = gid ∧ c.guestBId ∉ vg.1 then
              coupleDfs couples fuel c.guestBId vg
            else vg
          if c.guestBId = gid ∧ c.guestAId ∉ vg.1 then
            coupleDfs couples fuel c.guestAId vg
          else vg)
        (visited ++ [gid], group ++ [gid])

/-- One guest of the outer loop of `findCoupleGroups`: unvisited guests
start a traversal and their nonempty component is collected. -/
def coupleGroupStep (couples : List Couple) (fuel : Nat)
    (st : List Nat × List (List Nat)) (guest : Guest) :
    List Nat × List (List Nat) :=
  if guest.id ∈ st.1 then st
  else
    let vg := coupleDfs couples fuel guest.id (st.1, [])
    (vg.1, if vg.2.length > 0 then st.2 ++ [vg.2] else st.2)

/-- Model of `findCoupleGroups`: connected components of the undirected
couple graph, keeping only components of size at least 2. -/
def findCoupleGroups (guests : List Guest) (couples : List Couple) :
    List (List Nat) :=
  let fuel := guests.length + 2 * couples.length + 2
  ((guests.foldl (coupleGroupStep couples fuel) ([], [])).2).filter
    fun g => g.length > 1

/-- Names listed in an oversized-group error message. -/
def coupleGroupNames (guests : List Guest) (group : List Nat) : String :=
  String.intercalate ", " (group.map fun gId =>
    match guests.find? (fun gu => gu.id == gId) with
    | some guest => getFullName guest
    | none => "Inconnu")

/-- Errors of the honor-table capacity check (step 2 of the validator). -/
def honorErrorsOf (input : AlgorithmInput) : List String :=
  if (honorGuestIds input).length > input.configuration.honorTableSeats then
    [honorCapacityMessage input.configuration.honorTableSeats
      (honorGuestIds input).length]
  else []

/-- Errors of the couple/exclusion contradiction check (step 4). -/
def coupleErrorsOf (input : AlgorithmInput) : List String :=
  input.couples.flatMap fun couple =>
    if exclusionGraphHas input.guests input.exclusions couple.guestAId couple.guestBId then
      match input.guests.find? (fun g => g.id == couple.guestAId),
            input.guests.find? (fun g => g.id == couple.guestBId) with
      | some guestA, some guestB => [coupleConflictMessage guestA guestB]
      | _, _ => []
    else []

/-- Errors of the oversized couple-group check (step 6). -/
def groupErrorsOf (input : AlgorithmInput) : List String :=
  (findCoupleGroups input.guests input.couples).flatMap fun group =>
    let inHonor := group.any fun gId => (honorGuestIds input).contains gId
    let maxCapacity := if inHonor then input.configuration.honorTableSeats
      else input.configuration.seatsPerTable
    if group.length > maxCapacity then
      [coupleGroupMessage (coupleGroupNames input.guests group) group.length maxCapacity]
    else []

/-- Error list of a non-empty guest roster, in source order. -/
def validationErrors (input : AlgorithmInput) : List String :=
  honorErrorsOf input ++ coupleErrorsOf input ++ groupErrorsOf input

/-- Model of `validateConfiguration`: collects all errors of the
solvability checks, in source order. -/
def validateConfiguration (input : AlgorithmInput) : ValidationResult :=
  if input.guests.length = 0 then
    { isValid := false, errors := ["Aucun invité n\x27a été ajouté."] }
  else
    { isValid := (validationErrors input).isEmpty
      errors := validationErrors input }

-- ============================================
-- GUEST SEQUENCER (algorithm.ts lines 604-684)
-- ============================================

/-- Tail of the auto-generated-guest name pattern: one or more whitespace
characters followed by one or more decimal digits, then end of string. -/
def autoPatternTail (cs : List Char) : Bool :=
  match cs with
  | [] => false
  | c :: rest =>
    isJsSpace c &&
      (let digits := rest.dropWhile isJsSpace
       decide (digits ≠ []) && digits.all fun d => '0' ≤ d && d ≤ '9')

/-- Literal matcher: strips a literal character list from the front. -/
def stripLit : List Char → List Char → Option (List Char)
  | [], cs => some cs
  | _ :: _, [] => none
  | l :: ls, c :: cs => if c = l then stripLit ls cs else none

/-- Model of `isAutoGeneratedGuest`: the trimmed full name matches the
regular expression of the source, anchored on both sides. -/
def isAutoGeneratedGuest (guest : Guest) : Bool :=
  let name := jsTrim (guest.firstName ++ " " ++ (guest.lastName.getD ""))
  let cs := name.toList
  (match stripLit "Invité".toList cs with
   | some rest => autoPatternTail rest
   | none => false) ||
  (match stripLit "Guest".toList cs with
   | some rest => autoPatternTail rest
   | none => false)

/-- Membership in the `guestsWithExclusions` set: the guest id appears on
either side of some exclusion. -/
def hasExclRef (exclusions : List ExclusionConstraint) (g : Guest) : Bool :=
  exclusions.any fun e => e.guestAId == g.id || e.guestBId == g.id

/-- Rank used by the role criterion (`roleOrder` in `sortGuests`). -/
def roleOrder : GuestRole → Int
  | .married => 0
  | .witness => 1
  | .regular => 2

/-- Lexicographic comparison of char lists by code point. -/
def charListCmp : List Char → List Char → Int
  | [], [] => 0
  | [], _ :: _ => -1
  | _ :: _, [] => 1
  | a :: as, b :: bs =>
    if a < b then -1 else if b < a then 1 else charListCmp as bs

/-- String comparison standing in for `localeCompare`. -/
def strCmp (a b : String) : Int :=
  charListCmp a.toList b.toList

/-- Comparator of `sortGuests`: exclusions first, auto-generated last,
then role, family and age criteria when enabled. -/
def guestCompare (config : PlanConfiguration)
    (exclusions : List ExclusionConstraint) (a b : Guest) : Int :=
  let aEx := hasExclRef exclusions a
  let bEx := hasExclRef exclusions b
  if aEx && !bEx then -1
  else if !aEx && bEx then 1
  else
    let aAuto := isAutoGeneratedGuest a
    let bAuto := isAutoGeneratedGuest b
    if aAuto && !bAuto then 1
    else if !aAuto && bAuto then -1
    else
      let roleStep : Option Int :=
        if config.sortingCriteria.byRole then
          let rc := roleOrder a.role - roleOrder b.role
          if rc ≠ 0 then some rc else none
        else none
      match roleStep with
      | some v => v
      | none =>
        let famStep : Option Int :=
          match a.lastName, b.lastName with
          | some la, some lb =>
            if config.sortingCriteria.byFamily ∧ la ≠ "" ∧ lb ≠ "" then
              let fc := strCmp (normFamily la) (normFamily lb)
              if fc ≠ 0 then some fc else none
            else none
          | _, _ => none
        match famStep with
        | some v => v
        | none =>
          match a.age, b.age with
          | some x, some y => if config.sortingCriteria.byAge then x - y else 0
          | _, _ => 0

/-- Model of `sortGuests`: a stable sort by the comparator (the JS array
sort is stable). -/
def sortGuests (guests : List Guest) (config : PlanConfiguration)
    (exclusions : List ExclusionConstraint) : List Guest :=
  List.insertionSort (fun a b => guestCompare config exclusions a b ≤ 0) guests

/-- Key used by `groupByFamily`: normalized family name, with empty and
missing names collapsing to the `_no_family_` bucket. -/
def familyGroupKey (g : Guest) : String :=
  match g.lastName with
  | some l => let k := normFamily l; if k = "" then "_no_family_" else k
  | none => "_no_family_"

/-- Appends a guest to the entry of its key, preserving the insertion
order of keys exactly as a JS `Map` does. -/
def upsertFamily (m : List (String × List Guest)) (k : String) (g : Guest) :
    List (String × List Guest) :=
  match m with
  | [] => [(k, [g])]
  | (k', gs) :: rest =>
    if k' = k then (k', gs ++ [g]) :: rest else (k', gs) :: upsertFamily rest k g

/-- Model of `groupByFamily`. -/
def groupByFamily (guests : List Guest) : List (List Guest) :=
  (guests.foldl (fun m g => upsertFamily m (familyGroupKey g) g) []).map (·.2)

/-- Comparator used on plain guests by the exclusion-first sorts of the
placement preparation (lines 407-413 and 433-439). -/
def exclCompare (exclusions : List ExclusionConstraint) (a b : Guest) : Int :=
  let aEx := hasExclRef exclusions a
  let bEx := hasExclRef exclusions b
  if aEx && !bEx then -1 else if !aEx && bEx then 1 else 0

/-- Comparator used on extended family groups (lines 391-403): larger
groups first, ties broken by groups containing an exclusion first. -/
def extGroupCompare (exclusions : List ExclusionConstraint)
    (a b : List Guest) : Int :=
  let sizeDiff : Int := (b.length : Int) - (a.length : Int)
  if sizeDiff ≠ 0 then sizeDiff
  else
    let aEx := a.any (hasExclRef exclusions)
    let bEx := b.any (hasExclRef exclusions)
    if aEx && !bEx then -1 else if !aEx && bEx then 1 else 0

/-- One member step of the family-group extension loop (lines 368-388):
appends the member and, when unprocessed and not honor-bound, the couple
partner of the member. -/
def extendMemberStep (input : AlgorithmInput) (honorIds : List Nat)
    (acc : List Guest × List Nat) (member : Guest) : List Guest × List Nat :=
  if member.id ∈ acc.2 then acc
  else
    match getCouplePartner member input.couples input.guests with
    | some partner =>
      if partner.id ∉ acc.2 ++ [member.id] ∧ partner.id ∉ honorIds then
        (acc.1 ++ [member, partner], acc.2 ++ [member.id, partner.id])
      else (acc.1 ++ [member], acc.2 ++ [member.id])
    | none => (acc.1 ++ [member], acc.2 ++ [member.id])

/-- One family group of the extension loop: its extended group is built
from an empty list, with the shared processed set threaded through, and
appended when nonempty. -/
def extendGroupStep (input : AlgorithmInput) (honorIds : List Nat)
    (acc : List (List Guest) × List Nat) (group : List Guest) :
    List (List Guest) × List Nat :=
  (if (group.foldl (extendMemberStep input honorIds) ([], acc.2)).1.length > 0
    then acc.1 ++ [(group.foldl (extendMemberStep input honorIds) ([], acc.2)).1]
    else acc.1,
   (group.foldl (extendMemberStep input honorIds) ([], acc.2)).2)

/-- Extension of the family groups with couple partners, threading the
shared `processedGuestIds` set across groups. -/
def extendFamilyGroups (input : AlgorithmInput) (honorIds : List Nat)
    (familyGroups : List (List Guest)) : List (List Guest) :=
  (familyGroups.foldl (extendGroupStep input honorIds) ([], [])).1

/-- Placement order built by steps 5 and 6 of `generateSeatingPlan` from
the remaining (non-honor) guests: with family grouping the extended
family groups come largest first and auto-generated guests last, without
it the real guests are sorted exclusions-first and the auto-generated
guests appended. -/
def buildOrderedGuests (input : AlgorithmInput) (honorIds : List Nat)
    (remainingSorted : List Guest) : List Guest :=
  if input.configuration.sortingCriteria.byFamily then
    ((List.insertionSort (fun a b => extGroupCompare input.exclusions a b ≤ 0)
        (extendFamilyGroups input honorIds
          (List.insertionSort (fun a b => b.length ≤ a.length)
            (groupByFamily
              (remainingSorted.filter fun g => !isAutoGeneratedGuest g))))).map
      fun group =>
        List.insertionSort (fun a b => exclCompare input.exclusions a b ≤ 0)
          group).flatten ++
    remainingSorted.filter (fun g => isAutoGeneratedGuest g)
  else
    List.insertionSort (fun a b => exclCompare input.exclusions a b ≤ 0)
      (remainingSorted.filter fun g => !isAutoGeneratedGuest g) ++
    remainingSorted.filter (fun g => isAutoGeneratedGuest g)

/-- Placement order handed to the placement loop, starting from the full
input: honor-bound guests are removed, the remainder passes through
`sortGuests` and then through the grouping of step 6. -/
def orderedGuestsOf (input : AlgorithmInput) : List Guest :=
  buildOrderedGuests input (honorGuestIds input)
    (sortGuests (input.guests.filter fun g => g.id ∉ honorGuestIds input)
      input.configuration input.exclusions)

-- ============================================
-- PLACEMENT ENGINE (algorithm.ts lines 229-601, 686-816)
-- ============================================

/-- Mutable state of one generation run. -/
structure PlaceState where
  tables : List Table
  warnings : List Warning
  placed : List Nat
  familyMap : List (String × Nat)
deriving DecidableEq, Repr

/-- Check of the inner double loop of the table search: some member of
the unit has an exclusion against some guest already at the table. -/
def unitHasExclusionWith (unit tableGuests : List Guest)
    (exclusions : List ExclusionConstraint) : Bool :=
  unit.any fun newGuest => tableGuests.any fun existingGuest =>
    haveExclusion newGuest existingGuest exclusions

/-- Warning text of a best-effort placement that violates an exclusion. -/
def exclusionViolatedMessage (newGuest existingGuest : Guest) : String :=
  s!"{getFullName newGuest} et {getFullName existingGuest} sont à la même table malgré l\x27exclusion."

/-- Model of `findSuitableTableWithDebug`: first a scan of the non-honor
tables (index 1 and up) for capacity and zero conflicts, then a
best-effort scan for capacity only, emitting one warning per violated
exclusion pair at the chosen table. -/
def findSuitableTableWithDebug (tables : List Table) (guestsToPlace : List Guest)
    (exclusions : List ExclusionConstraint) (seatsPerTable : Nat) :
    Option Table × List Warning :=
  match (tables.drop 1).find? (fun table =>
      decide (table.guests.length + guestsToPlace.length ≤ seatsPerTable) &&
      !(unitHasExclusionWith guestsToPlace table.guests exclusions)) with
  | some table => (some table, [])
  | none =>
    match (tables.drop 1).find? (fun table =>
        decide (table.guests.length + guestsToPlace.length ≤ seatsPerTable)) with
    | some table =>
      let ws := guestsToPlace.flatMap fun newGuest =>
        table.guests.filterMap fun existingGuest =>
          if haveExclusion newGuest existingGuest exclusions then
            some { type := .exclusion_violated,
                   message := exclusionViolatedMessage newGuest existingGuest,
                   guestIds := [newGuest.id, existingGuest.id] }
          else none
      (some table, ws)
    | none => (none, [])

/-- Model of `findSuitableTableWithFamilyPreference`: tries the table
already holding the family when one is recorded, then falls back to the
standard search. -/
def findSuitableTableWithFamilyPreference (tables : List Table)
    (guestsToPlace : List Guest) (exclusions : List ExclusionConstraint)
    (seatsPerTable : Nat) (preferredTableId : Option Nat) :
    Option Table × List Warning :=
  let fallback := findSuitableTableWithDebug tables guestsToPlace exclusions seatsPerTable
  match preferredTableId with
  | none => fallback
  | some pid =>
    match tables.find? (fun t => t.id == pid) with
    | none => fallback
    | some preferredTable =>
      if preferredTable.number ≠ 1 ∧
         preferredTable.guests.length + guestsToPlace.length ≤ seatsPerTable ∧
         unitHasExclusionWith guestsToPlace preferredTable.guests exclusions = false
      then (some preferredTable, [])
      else fallback

/-- Appends the unit to the guest list of the table carrying the given id
(the JS code pushes through an object reference; ids are unique). -/
def pushToTable (tables : List Table) (tid : Nat) (unit : List Guest) :
    List Table :=
  tables.map fun t => if t.id = tid then { t with guests := t.guests ++ unit } else t

/-- Family-map update run for each placed guest (lines 505-511). -/
def updateFamilyMap (byFamily : Bool) (fm : List (String × Nat)) (g : Guest)
    (tid : Nat) : List (String × Nat) :=
  match g.lastName with
  | some ln =>
    if ln ≠ "" ∧ byFamily then
      let fName := normFamily ln
      if (fm.find? fun p => p.1 == fName).isSome then fm else fm ++ [(fName, tid)]
    else fm
  | none => fm

/-- Warning text for a last-resort honor-table placement. -/
def honorLastResortMessage (guestNames : String) : String :=
  s!"{guestNames} placé(s) à la table d\x27honneur faute de place ailleurs."

/-- Warning text when the honor table is blocked by an exclusion. -/
def honorExclusionMessage (guestNames : String) : String :=
  s!"Impossible de placer {guestNames} : toutes les tables sont pleines et exclusion avec la table d\x27honneur."

/-- Warning text when even the honor table is full. -/
def honorFullMessage (guestNames : String) : String :=
  s!"Impossible de placer {guestNames} : toutes les tables sont pleines, y compris la table d\x27honneur."

/-- Warning text when no honor table exists in the scanned list. -/
def allTablesFullMessage (guestNames : String) : String :=
  s!"Impossible de placer {guestNames} : toutes les tables sont pleines."

/-- Exclusion test of the honor-table last resort (lines 521-528). -/
def honorTableExclusionCheck (unit honorGuests : List Guest)
    (exclusions : List ExclusionConstraint) : Bool :=
  unit.any fun guestToPlace =>
    exclusions.any fun exc =>
      (exc.guestAId == guestToPlace.id || exc.guestBId == guestToPlace.id) &&
      (let otherGuestId := if exc.guestAId = guestToPlace.id then exc.guestBId else exc.guestAId
       honorGuests.any fun g => g.id == otherGuestId)

/-- Commit of a successful placement: the unit joins the chosen table,
its ids join the placed set, the warnings of the search are recorded and
(for non-honor placements) the family map learns the new families. -/
def commitUnit (byFamily : Bool) (st : PlaceState) (tid : Nat)
    (unit : List Guest) (ws : List Warning) (updateFam : Bool) : PlaceState :=
  { tables := pushToTable st.tables tid unit
    warnings := st.warnings ++ ws
    placed := st.placed ++ unit.map (·.id)
    familyMap := if updateFam then
        unit.foldl (fun fm g => updateFamilyMap byFamily fm g tid) st.familyMap
      else st.familyMap }

/-- Failure of a placement: only a warning is recorded. -/
def warnOnly (st : PlaceState) (message : String) (unit : List Guest) :
    PlaceState :=
  { st with warnings := st.warnings ++
      [{ type := .exclusion_violated, message := message,
         guestIds := unit.map (·.id) }] }

/-- Unit placed atomically: the guest plus the unplaced couple partner
(lines 456-459). -/
def unitOf (input : AlgorithmInput) (st : PlaceState) (guest : Guest) :
    List Guest :=
  match getCouplePartner guest input.couples input.guests with
  | some p => if p.id ∈ st.placed then [guest] else [guest, p]
  | none => [guest]

/-- Preferred family table id of a guest (lines 476-485): only when the
family criterion is on and the trimmed lowercased last name is nonempty. -/
def preferredIdOf (input : AlgorithmInput) (st : PlaceState) (guest : Guest) :
    Option Nat :=
  match guest.lastName.map normFamily with
  | some fn =>
    if fn ≠ "" ∧ input.configuration.sortingCriteria.byFamily then
      (st.familyMap.find? fun p => p.1 == fn).map (·.2)
    else none
  | none => none

/-- Joined names used by the failure warnings of the loop body. -/
def unitNames (unit : List Guest) : String :=
  String.intercalate " et " (unit.map getFullName)

/-- Warning recorded by a last-resort honor-table placement. -/
def honorWarning (unit : List Guest) : Warning :=
  { type := .exclusion_violated,
    message := honorLastResortMessage (unitNames unit),
    guestIds := unit.map (·.id) }

/-- Body of the placement loop for one guest of the ordered list
(lines 452-566): skip if placed, form the unit with the unplaced partner,
search a table with family preference, and fall back to the honor table
or to a warning. -/
def placeGuestStep (input : AlgorithmInput) (st : PlaceState) (guest : Guest) :
    PlaceState :=
  if guest.id ∈ st.placed then st
  else
    match findSuitableTableWithFamilyPreference st.tables (unitOf input st guest)
      input.exclusions input.configuration.seatsPerTable
      (preferredIdOf input st guest) with
    | (some suitableTable, ws) =>
      commitUnit input.configuration.sortingCriteria.byFamily st
        suitableTable.id (unitOf input st guest) ws true
    | (none, _) =>
      match st.tables.find? (fun t => t.number == 1) with
      | some honorTable =>
        if honorTable.guests.length + (unitOf input st guest).length ≤ honorTable.capacity then
          if honorTableExclusionCheck (unitOf input st guest) honorTable.guests input.exclusions then
            warnOnly st (honorExclusionMessage (unitNames (unitOf input st guest)))
              (unitOf input st guest)
          else
            commitUnit input.configuration.sortingCriteria.byFamily st
              honorTable.id (unitOf input st guest)
              [honorWarning (unitOf input st guest)] false
        else
          warnOnly st (honorFullMessage (unitNames (unitOf input st guest)))
            (unitOf input st guest)
      | none =>
        warnOnly st (allTablesFullMessage (unitNames (unitOf input st guest)))
          (unitOf input st guest)

/-- Honor table as created and filled by steps 2-3 (lines 270-318): id 0
in this model, number 1, populated with the role-qualified guests and
their partners. -/
def honorTableInit (input : AlgorithmInput) : Table :=
  { id := 0, number := 1, name := "Table d\x27honneur",
    guests := input.guests.filter fun g => g.id ∈ honorGuestIds input,
    capacity := input.configuration.honorTableSeats }

/-- Regular table created up front for slot i (table number i+2). -/
def regularTableInit (input : AlgorithmInput) (i : Nat) : Table :=
  { id := i + 1, number := i + 2, name := s!"Table {i + 2}",
    guests := [], capacity := input.configuration.seatsPerTable }

/-- Initial tables of a run: the honor table (number 1) followed by the
configured regular tables, all empty except the honor table. -/
def initialTables (input : AlgorithmInput) : List Table :=
  honorTableInit input ::
    (List.range input.configuration.numberOfTables).map (regularTableInit input)

/-- Placement state after the full placement loop (steps 2-7 of
`generateSeatingPlan`), before the optional shuffle. -/
def generateCore (input : AlgorithmInput) : PlaceState :=
  (orderedGuestsOf input).foldl (placeGuestStep input)
    { tables := initialTables input
      warnings := []
      placed := honorGuestIds input
      familyMap := [] }

-- ============================================
-- POST-PASS RANDOMIZER (algorithm.ts lines 568-577, 884-892)
-- ============================================

/-- Swap of two positions of a list (the destructuring swap of
`shuffleArray`); out-of-range indices leave the list unchanged. -/
def listSwap {α : Type} (l : List α) (i j : Nat) : List α :=
  match l[i]?, l[j]? with
  | some a, some b => (l.set i b).set j a
  | _, _ => l

/-- Fisher-Yates loop of `shuffleArray`: the index runs from the end of
the list down to 1, the random draw at index i is modelled as the next
element of the stream reduced modulo i+1. -/
def fisherYates {α : Type} : List α → List Nat → Nat → List α × List Nat
  | l, rand, 0 => (l, rand)
  | l, rand, i + 1 =>
    let j := rand.headD 0 % (i + 2)
    fisherYates (listSwap l (i + 1) j) rand.tail i

/-- Shuffle pass of step 8: every table except the honor table (number 1)
has its guest list shuffled in place, consuming the random stream. -/
def shuffleTables : List Table → List Nat → List Table
  | [], _ => []
  | table :: rest, rand =>
    if table.number ≠ 1 then
      let (g, r) := fisherYates table.guests rand (table.guests.length - 1)
      { table with guests := g } :: shuffleTables rest r
    else table :: shuffleTables rest rand

-- ============================================
-- MAIN ENTRY POINT (algorithm.ts lines 229-602)
-- ============================================

/-- Model of `generateSeatingPlan`: validation gates the run, then the
placement state is built and optionally shuffled.  The `rand` stream
parametrizes the draws of `Math.random` used by the shuffle. -/
def generateSeatingPlan (input : AlgorithmInput) (rand : List Nat) :
    SeatingPlanResult :=
  let validation := validateConfiguration input
  if validation.isValid = false then
    { success := false, tables := [], warnings := [], errors := validation.errors }
  else
    let st := generateCore input
    { success := true
      tables := if input.configuration.sortingCriteria.random then
          shuffleTables st.tables rand
        else st.tables
      warnings := st.warnings
      errors := [] }

-- ============================================
-- BASIC LEMMAS
-- ============================================

theorem mem_insertIfAbsent {l : List Nat} {x y : Nat} :
    x ∈ insertIfAbsent l y ↔ x ∈ l ∨ x = y := by
  unfold insertIfAbsent
  split
  · constructor
    · exact fun h => Or.inl h
    · rintro (h | rfl) <;> assumption
  · simp [List.mem_append]

theorem insertIfAbsent_nodup {l : List Nat} (h : l.Nodup) (y : Nat) :
    (insertIfAbsent l y).Nodup := by
  unfold insertIfAbsent
  split
  · exact h
  · next hy => simpa [List.nodup_append, h] using hy

theorem honorIdStep_mono {input : AlgorithmInput} {s : List Nat} {g : Guest}
    {x : Nat} (hx : x ∈ s) : x ∈ honorIdStep input s g := by
  cases h : getCouplePartner g input.couples input.guests <;>
    simp [honorIdStep, h, mem_insertIfAbsent, hx]

theorem honorIdStep_nodup {input : AlgorithmInput} {s : List Nat} {g : Guest}
    (hs : s.Nodup) : (honorIdStep input s g).Nodup := by
  cases h : getCouplePartner g input.couples input.guests with
  | none => simpa [honorIdStep, h] using insertIfAbsent_nodup hs g.id
  | some q =>
    simpa [honorIdStep, h] using
      insertIfAbsent_nodup (insertIfAbsent_nodup hs g.id) q.id

theorem honorIdStep_self {input : AlgorithmInput} {s : List Nat} {g : Guest} :
    g.id ∈ honorIdStep input s g := by
  cases h : getCouplePartner g input.couples input.guests <;>
    simp [honorIdStep, h, mem_insertIfAbsent]

theorem honorIdStep_partner {input : AlgorithmInput} {s : List Nat} {g p : Guest}
    (hp : getCouplePartner g input.couples input.guests = some p) :
    p.id ∈ honorIdStep input s g := by
  simp [honorIdStep, hp, mem_insertIfAbsent]

theorem honorIdStep_elim {input : AlgorithmInput} {s : List Nat} {g : Guest}
    {x : Nat} (hx : x ∈ honorIdStep input s g) :
    x ∈ s ∨ x = g.id ∨
      ∃ p, getCouplePartner g input.couples input.guests = some p ∧ x = p.id := by
  cases h : getCouplePartner g input.couples input.guests with
  | none =>
    simp only [honorIdStep, h] at hx
    rcases mem_insertIfAbsent.mp hx with h' | h'
    · exact Or.inl h'
    · exact Or.inr (Or.inl h')
  | some q =>
    simp only [honorIdStep, h] at hx
    rcases mem_insertIfAbsent.mp hx with h' | h'
    · rcases mem_insertIfAbsent.mp h' with h'' | h''
      · exact Or.inl h''
      · exact Or.inr (Or.inl h'')
    · exact Or.inr (Or.inr ⟨q, rfl, h'⟩)

theorem foldl_honorIdStep_mono {input : AlgorithmInput} :
    ∀ (l : List Guest) (s : List Nat) (x : Nat), x ∈ s →
      x ∈ l.foldl (honorIdStep input) s
  | [], _, _, hx => hx
  | _ :: t, s, x, hx =>
    foldl_honorIdStep_mono t _ x (honorIdStep_mono hx)

theorem foldl_honorIdStep_nodup {input : AlgorithmInput} :
    ∀ (l : List Guest) (s : List Nat), s.Nodup →
      (l.foldl (honorIdStep input) s).Nodup
  | [], _, hs => hs
  | _ :: t, s, hs => foldl_honorIdStep_nodup t _ (honorIdStep_nodup hs)

theorem foldl_honorIdStep_elim {input : AlgorithmInput} :
    ∀ (l : List Guest) (s : List Nat) (x : Nat),
      x ∈ l.foldl (honorIdStep input) s →
      x ∈ s ∨ ∃ g ∈ l, x = g.id ∨
        ∃ p, getCouplePartner g input.couples input.guests = some p ∧ x = p.id
  | [], _, _, hx => Or.inl hx
  | g :: t, s, x, hx => by
    rcases foldl_honorIdStep_elim t _ x hx with h | ⟨g', hg', h⟩
    · rcases honorIdStep_elim h with h' | h'
      · exact Or.inl h'
      · exact Or.inr ⟨g, List.mem_cons_self .., h'⟩
    · exact Or.inr ⟨g', List.mem_cons_of_mem _ hg', h⟩

theorem foldl_honorIdStep_mem {input : AlgorithmInput} :
    ∀ (l : List Guest) (s : List Nat) (g : Guest), g ∈ l →
      g.id ∈ l.foldl (honorIdStep input) s ∧
      ∀ p, getCouplePartner g input.couples input.guests = some p →
        p.id ∈ l.foldl (honorIdStep input) s
  | [], _, _, hg => absurd hg (List.not_mem_nil _)
  | h :: t, s, g, hg => by
    rcases List.mem_cons.mp hg with rfl | hg'
    · refine ⟨foldl_honorIdStep_mono t _ _ honorIdStep_self, fun p hp => ?_⟩
      exact foldl_honorIdStep_mono t _ _ (honorIdStep_partner hp)
    · exact foldl_honorIdStep_mem t _ g hg'

theorem honorGuestIds_nodup (input : AlgorithmInput) :
    (honorGuestIds input).Nodup :=
  foldl_honorIdStep_nodup _ _ List.nodup_nil

theorem honorGuestIds_mem_self {input : AlgorithmInput} {g : Guest}
    (hg : g ∈ honorRoleGuests input) : g.id ∈ honorGuestIds input :=
  (foldl_honorIdStep_mem _ _ g hg).1

theorem honorGuestIds_mem_partner {input : AlgorithmInput} {g p : Guest}
    (hg : g ∈ honorRoleGuests input)
    (hp : getCouplePartner g input.couples input.guests = some p) :
    p.id ∈ honorGuestIds input :=
  (foldl_honorIdStep_mem _ _ g hg).2 p hp

theorem honorGuestIds_elim {input : AlgorithmInput} {x : Nat}
    (hx : x ∈ honorGuestIds input) :
    ∃ g ∈ honorRoleGuests input, x = g.id ∨
      ∃ p, getCouplePartner g input.couples input.guests = some p ∧ x = p.id := by
  rcases foldl_honorIdStep_elim _ _ _ hx with h | h
  · cases h
  · exact h

theorem getCouplePartner_mem {guest p : Guest} {couples : List Couple}
    {allGuests : List Guest}
    (h : getCouplePartner guest couples allGuests = some p) : p ∈ allGuests := by
  unfold getCouplePartner at h
  split at h
  · cases h
  · exact List.mem_of_find?_eq_some h

theorem honorGuestIds_sub {input : AlgorithmInput} {x : Nat}
    (hx : x ∈ honorGuestIds input) : ∃ g ∈ input.guests, g.id = x := by
  rcases honorGuestIds_elim hx with ⟨g, hg, rfl | ⟨p, hp, rfl⟩⟩
  · exact ⟨g, (List.mem_filter.mp hg).1, rfl⟩
  · exact ⟨p, getCouplePartner_mem hp, rfl⟩

/-- Characterization of `find?` when every satisfying element is equal to
a known member. -/
theorem find?_eq_of_unique {α : Type} {p : α → Bool} {a : α} :
    ∀ {l : List α}, a ∈ l → p a = true → (∀ b ∈ l, p b = true → b = a) →
      l.find? p = some a
  | [], ha, _, _ => absurd ha (List.not_mem_nil _)
  | b :: t, ha, hpa, huniq => by
    rcases List.mem_cons.mp ha with rfl | ha'
    · simp [List.find?_cons, hpa]
    · rw [List.find?_cons]
      split
      · next hb => rw [huniq b (List.mem_cons_self ..) hb]
      · exact find?_eq_of_unique ha' hpa fun c hc hpc =>
          huniq c (List.mem_cons_of_mem _ hc) hpc

/-- Injectivity of ids on a list of guests with nodup ids. -/
theorem guest_id_inj {guests : List Guest}
    (hnd : (guests.map (·.id)).Nodup) {a b : Guest}
    (ha : a ∈ guests) (hb : b ∈ guests) (hid : a.id = b.id) : a = b :=
  List.inj_on_of_nodup_map hnd ha hb hid

-- ============================================
-- WELL-FORMED COUPLES
-- ============================================

/-- Well-formedness of one couple, following the data model of the
specification: both members are guests, the two sides differ, no other
couple shares a member with it, and guest ids are unique. -/
structure CoupleWF (input : AlgorithmInput) (c : Couple) (A B : Guest) : Prop where
  cmem : c ∈ input.couples
  memA : A ∈ input.guests
  memB : B ∈ input.guests
  idA : A.id = c.guestAId
  idB : B.id = c.guestBId
  sides : c.guestAId ≠ c.guestBId
  unique : ∀ c' ∈ input.couples,
    c'.guestAId = c.guestAId ∨ c'.guestAId = c.guestBId ∨
    c'.guestBId = c.guestAId ∨ c'.guestBId = c.guestBId → c' = c
  nodupIds : (input.guests.map (·.id)).Nodup

theorem CoupleWF.partner_A {input : AlgorithmInput} {c : Couple} {A B : Guest}
    (h : CoupleWF input c A B) :
    getCouplePartner A input.couples input.guests = some B := by
  have hfind : input.couples.find?
      (fun c' => c'.guestAId == A.id || c'.guestBId == A.id) = some c := by
    apply find?_eq_of_unique h.cmem
    · simp [h.idA]
    · intro c' hc' hp
      apply h.unique c' hc'
      rcases Bool.or_eq_true_iff.mp hp with hp' | hp'
      · exact Or.inl (by simpa [h.idA] using beq_iff_eq.mp hp')
      · exact Or.inr (Or.inr (Or.inl (by simpa [h.idA] using beq_iff_eq.mp hp')))
  have hgoal : input.guests.find? (fun g => g.id == c.guestBId) = some B := by
    apply find?_eq_of_unique h.memB
    · simp [h.idB]
    · intro g hg hp
      exact guest_id_inj h.nodupIds hg h.memB (by rw [beq_iff_eq.mp hp, h.idB])
  simp [getCouplePartner, hfind, ← h.idA, hgoal]

theorem CoupleWF.partner_B {input : AlgorithmInput} {c : Couple} {A B : Guest}
    (h : CoupleWF input c A B) :
    getCouplePartner B input.couples input.guests = some A := by
  have hfind : input.couples.find?
      (fun c' => c'.guestAId == B.id || c'.guestBId == B.id) = some c := by
    apply find?_eq_of_unique h.cmem
    · simp [h.idB]
    · intro c' hc' hp
      apply h.unique c' hc'
      rcases Bool.or_eq_true_iff.mp hp with hp' | hp'
      · exact Or.inr (Or.inl (by simpa [h.idB] using beq_iff_eq.mp hp'))
      · exact Or.inr (Or.inr (Or.inr (by simpa [h.idB] using beq_iff_eq.mp hp')))
  have hne : ¬ c.guestAId = B.id := fun heq =>
    h.sides (by rw [heq, h.idB])
  have hgoal : input.guests.find? (fun g => g.id == c.guestAId) = some A := by
    apply find?_eq_of_unique h.memA
    · simp [h.idA]
    · intro g hg hp
      exact guest_id_inj h.nodupIds hg h.memA (by rw [beq_iff_eq.mp hp, h.idA])
  simp [getCouplePartner, hfind, hne, hgoal]

/-- Only the other couple member has this member as partner: if some
guest resolves its partner to a guest with the id of A, then that guest
has the id of B. -/
theorem CoupleWF.partner_to_A {input : AlgorithmInput} {c : Couple} {A B : Guest}
    (h : CoupleWF input c A B) {g₀ p : Guest}
    (hp : getCouplePartner g₀ input.couples input.guests = some p)
    (hid : p.id = A.id) : g₀.id = B.id := by
  unfold getCouplePartner at hp
  rcases hfind : input.couples.find?
      (fun c' => c'.guestAId == g₀.id || c'.guestBId == g₀.id) with _ | c₀
  · rw [hfind] at hp; cases hp
  · have hc₀mem : c₀ ∈ input.couples := List.mem_of_find?_eq_some hfind
    have hc₀pred := List.find?_some hfind
    rw [hfind] at hp
    simp only [] at hp
    have hpid0 := List.find?_some hp
    simp only [beq_iff_eq] at hpid0
    have hpid : p.id = (if c₀.guestAId = g₀.id then c₀.guestBId else c₀.guestAId) := hpid0
    by_cases hcase : c₀.guestAId = g₀.id
    · rw [if_pos hcase] at hpid
      have hbb : c₀.guestBId = c.guestAId := by rw [← hpid, hid, h.idA]
      have hc₀ : c₀ = c := h.unique c₀ hc₀mem (Or.inr (Or.inr (Or.inl hbb)))
      exact absurd (by rw [← hbb, hc₀]) h.sides
    · rw [if_neg hcase] at hpid
      have haa : c₀.guestAId = c.guestAId := by rw [← hpid, hid, h.idA]
      have hc₀ : c₀ = c := h.unique c₀ hc₀mem (Or.inl haa)
      subst hc₀
      rcases Bool.or_eq_true_iff.mp hc₀pred with hp' | hp'
      · exact absurd (beq_iff_eq.mp hp') hcase
      · rw [h.idB]; exact (beq_iff_eq.mp hp').symm

/-- Symmetric version of `partner_to_A`. -/
theorem CoupleWF.partner_to_B {input : AlgorithmInput} {c : Couple} {A B : Guest}
    (h : CoupleWF input c A B) {g₀ p : Guest}
    (hp : getCouplePartner g₀ input.couples input.guests = some p)
    (hid : p.id = B.id) : g₀.id = A.id := by
  unfold getCouplePartner at hp
  rcases hfind : input.couples.find?
      (fun c' => c'.guestAId == g₀.id || c'.guestBId == g₀.id) with _ | c₀
  · rw [hfind] at hp; cases hp
  · have hc₀mem : c₀ ∈ input.couples := List.mem_of_find?_eq_some hfind
    have hc₀pred := List.find?_some hfind
    rw [hfind] at hp
    simp only [] at hp
    have hpid0 := List.find?_some hp
    simp only [beq_iff_eq] at hpid0
    have hpid : p.id = (if c₀.guestAId = g₀.id then c₀.guestBId else c₀.guestAId) := hpid0
    by_cases hcase : c₀.guestAId = g₀.id
    · rw [if_pos hcase] at hpid
      have hbb : c₀.guestBId = c.guestBId := by rw [← hpid, hid, h.idB]
      have hc₀ : c₀ = c := h.unique c₀ hc₀mem (Or.inr (Or.inr (Or.inr hbb)))
      subst hc₀
      rw [h.idA, hcase]
    · rw [if_neg hcase] at hpid
      have hab : c₀.guestAId = c.guestBId := by rw [← hpid, hid, h.idB]
      have hc₀ : c₀ = c := h.unique c₀ hc₀mem (Or.inr (Or.inl hab))
      subst hc₀
      exact absurd hab h.sides

/-- Honor-set membership is symmetric on a well-formed couple. -/
theorem CoupleWF.honorIds_to {input : AlgorithmInput} {c : Couple} {A B : Guest}
    (h : CoupleWF input c A B) (hA : A.id ∈ honorGuestIds input) :
    B.id ∈ honorGuestIds input := by
  rcases honorGuestIds_elim hA with ⟨g, hg, heq | ⟨p, hp, heq⟩⟩
  · have hgmem : g ∈ input.guests := (List.mem_filter.mp hg).1
    have : g = A := guest_id_inj h.nodupIds hgmem h.memA heq.symm
    subst this
    exact honorGuestIds_mem_partner hg h.partner_A
  · have hpmem : p ∈ input.guests := getCouplePartner_mem hp
    have hgmem : g ∈ input.guests := (List.mem_filter.mp hg).1
    have hgid : g.id = B.id := h.partner_to_A hp heq.symm
    have : g = B := guest_id_inj h.nodupIds hgmem h.memB hgid
    subst this
    exact honorGuestIds_mem_self hg

/-- Converse direction of `honorIds_to`. -/
theorem CoupleWF.honorIds_from {input : AlgorithmInput} {c : Couple} {A B : Guest}
    (h : CoupleWF input c A B) (hB : B.id ∈ honorGuestIds input) :
    A.id ∈ honorGuestIds input := by
  rcases honorGuestIds_elim hB with ⟨g, hg, heq | ⟨p, hp, heq⟩⟩
  · have hgmem : g ∈ input.guests := (List.mem_filter.mp hg).1
    have : g = B := guest_id_inj h.nodupIds hgmem h.memB heq.symm
    subst this
    exact honorGuestIds_mem_partner hg h.partner_B
  · have hpmem : p ∈ input.guests := getCouplePartner_mem hp
    have hgmem : g ∈ input.guests := (List.mem_filter.mp hg).1
    have hgid : g.id = A.id := h.partner_to_B hp heq.symm
    have : g = A := guest_id_inj h.nodupIds hgmem h.memA hgid
    subst this
    exact honorGuestIds_mem_self hg

-- ============================================
-- VALIDATION LEMMAS
-- ============================================

theorem validateConfiguration_errors_of_ne {input : AlgorithmInput}
    (h : input.guests ≠ []) :
    (validateConfiguration input).errors = validationErrors input := by
  unfold validateConfiguration
  rw [if_neg (by simpa [List.length_eq_zero] using h)]

theorem validateConfiguration_isValid_of_ne {input : AlgorithmInput}
    (h : input.guests ≠ []) :
    (validateConfiguration input).isValid = (validationErrors input).isEmpty := by
  unfold validateConfiguration
  rw [if_neg (by simpa [List.length_eq_zero] using h)]

/-- A validated configuration has an honor set within honor capacity. -/
theorem valid_honor_le {input : AlgorithmInput}
    (h : (validateConfiguration input).isValid = true) :
    (honorGuestIds input).length ≤ input.configuration.honorTableSeats := by
  unfold validateConfiguration at h
  split at h
  · simp at h
  · simp only [List.isEmpty_iff] at h
    have hh : honorErrorsOf input = [] := by
      rcases List.append_eq_nil.mp h with ⟨h1, _⟩
      rcases List.append_eq_nil.mp h1 with ⟨h2, _⟩
      exact h2
    unfold honorErrorsOf at hh
    split at hh
    · cases hh
    · next hgt => exact Nat.le_of_not_lt hgt

/-- The success bit of a run coincides with the validity bit. -/
theorem generate_success_iff {input : AlgorithmInput} {rand : List Nat} :
    (generateSeatingPlan input rand).success = (validateConfiguration input).isValid := by
  cases hv : (validateConfiguration input).isValid <;>
    simp [generateSeatingPlan, hv]

/-- Tables of a successful run: the placement tables, shuffled when the
random criterion is on. -/
theorem generate_tables_of_valid {input : AlgorithmInput} {rand : List Nat}
    (h : (validateConfiguration input).isValid = true) :
    (generateSeatingPlan input rand).tables =
      (if input.configuration.sortingCriteria.random then
        shuffleTables (generateCore input).tables rand
      else (generateCore input).tables) ∧
    (generateSeatingPlan input rand).warnings = (generateCore input).warnings := by
  refine ⟨?_, ?_⟩ <;> simp [generateSeatingPlan, h]

/-- Counting guests whose id lies in a nodup set of present ids gives
exactly the size of the set. -/
theorem length_filter_mem_ids {guests : List Guest} {S : List Nat}
    (hnd : (guests.map (·.id)).Nodup) (hS : S.Nodup)
    (hsub : ∀ x ∈ S, ∃ g ∈ guests, g.id = x) :
    (guests.filter fun g => decide (g.id ∈ S)).length = S.length := by
  have h1 : (guests.filter fun g => decide (g.id ∈ S)).length =
      ((guests.map (·.id)).filter fun x => decide (x ∈ S)).length := by
    rw [← List.countP_eq_length_filter, ← List.countP_eq_length_filter,
      List.countP_map]
    rfl
  have hperm : ((guests.map (·.id)).filter fun x => decide (x ∈ S)).Perm S := by
    rw [List.perm_ext_iff_of_nodup (hnd.filter _) hS]
    intro a
    constructor
    · intro ha
      have := List.mem_filter.mp ha
      simpa using this.2
    · intro ha
      refine List.mem_filter.mpr ⟨?_, by simpa using ha⟩
      rcases hsub a ha with ⟨g, hg, rfl⟩
      exact List.mem_map.mpr ⟨g, hg, rfl⟩
  rw [h1, hperm.length_eq]

-- ============================================
-- PLACEMENT STEP CASE ANALYSIS
-- ============================================

/-- Exhaustive case analysis of one placement-loop step. -/
theorem placeGuestStep_elim (input : AlgorithmInput) (st : PlaceState)
    (guest : Guest) (motive : PlaceState → Prop)
    (hplaced : guest.id ∈ st.placed → motive st)
    (hcommit : ∀ t ws, guest.id ∉ st.placed →
      findSuitableTableWithFamilyPreference st.tables (unitOf input st guest)
        input.exclusions input.configuration.seatsPerTable
        (preferredIdOf input st guest) = (some t, ws) →
      motive (commitUnit input.configuration.sortingCriteria.byFamily st t.id
        (unitOf input st guest) ws true))
    (hhonor : ∀ ht ws₀, guest.id ∉ st.placed →
      findSuitableTableWithFamilyPreference st.tables (unitOf input st guest)
        input.exclusions input.configuration.seatsPerTable
        (preferredIdOf input st guest) = (none, ws₀) →
      st.tables.find? (fun t => t.number == 1) = some ht →
      ht.guests.length + (unitOf input st guest).length ≤ ht.capacity →
      honorTableExclusionCheck (unitOf input st guest) ht.guests input.exclusions = false →
      motive (commitUnit input.configuration.sortingCriteria.byFamily st ht.id
        (unitOf input st guest) [honorWarning (unitOf input st guest)] false))
    (hwarn : ∀ msg, guest.id ∉ st.placed →
      motive (warnOnly st msg (unitOf input st guest))) :
    motive (placeGuestStep input st guest) := by
  unfold placeGuestStep
  split
  · next h => exact hplaced h
  · next h =>
    rcases hfs : findSuitableTableWithFamilyPreference st.tables
      (unitOf input st guest) input.exclusions
      input.configuration.seatsPerTable (preferredIdOf input st guest) with ⟨o, ws⟩
    cases o with
    | some t => exact hcommit t ws h hfs
    | none =>
      dsimp only
      split
      · next ht hfind =>
        split
        · next hcap =>
          split
          · next => exact hwarn _ h
          · next hex => exact hhonor ht ws h hfs hfind hcap (by simpa using hex)
        · next hcap => exact hwarn _ h
      · next hfind => exact hwarn _ h

-- ============================================
-- TABLE SEARCH SPECIFICATIONS
-- ============================================

theorem findSuitableTableWithDebug_some {tables : List Table}
    {unit : List Guest} {excl : List ExclusionConstraint} {seats : Nat}
    {t : Table} {ws : List Warning}
    (h : findSuitableTableWithDebug tables unit excl seats = (some t, ws)) :
    t ∈ tables.drop 1 ∧ t.guests.length + unit.length ≤ seats ∧
      ∀ w ∈ ws, w.type = .exclusion_violated := by
  unfold findSuitableTableWithDebug at h
  rcases h1 : (tables.drop 1).find? (fun table =>
      decide (table.guests.length + unit.length ≤ seats) &&
      !(unitHasExclusionWith unit table.guests excl)) with _ | t₁
  · rw [h1] at h
    rcases h2 : (tables.drop 1).find? (fun table =>
        decide (table.guests.length + unit.length ≤ seats)) with _ | t₂
    · rw [h2] at h; cases h
    · rw [h2] at h
      injection h with h3 h4
      injection h3 with h3
      subst h3
      refine ⟨List.mem_of_find?_eq_some h2, by simpa using List.find?_some h2, ?_⟩
      intro w hw
      rw [← h4] at hw
      rcases List.mem_flatMap.mp hw with ⟨n, _, hn⟩
      rcases List.mem_filterMap.mp hn with ⟨e, _, he⟩
      split at he
      · injection he with he; rw [← he]
      · cases he
  · rw [h1] at h
    injection h with h3 h4
    injection h3 with h3
    subst h3
    have hp := List.find?_some h1
    rw [Bool.and_eq_true] at hp
    exact ⟨List.mem_of_find?_eq_some h1, by simpa using hp.1, by rw [← h4]; intro w hw; cases hw⟩

theorem findSuitableTableWithFamilyPreference_some {tables : List Table}
    {unit : List Guest} {excl : List ExclusionConstraint} {seats : Nat}
    {pid : Option Nat} {t : Table} {ws : List Warning}
    (h : findSuitableTableWithFamilyPreference tables unit excl seats pid = (some t, ws)) :
    t ∈ tables ∧ t.guests.length + unit.length ≤ seats ∧
      (t.number ≠ 1 ∨ t ∈ tables.drop 1) ∧
      ∀ w ∈ ws, w.type = .exclusion_violated := by
  unfold findSuitableTableWithFamilyPreference at h
  have fall : findSuitableTableWithDebug tables unit excl seats = (some t, ws) →
      t ∈ tables ∧ t.guests.length + unit.length ≤ seats ∧
      (t.number ≠ 1 ∨ t ∈ tables.drop 1) ∧
      ∀ w ∈ ws, w.type = .exclusion_violated := by
    intro h'
    obtain ⟨hm, hc, hty⟩ := findSuitableTableWithDebug_some h'
    exact ⟨List.mem_of_mem_drop hm, hc, Or.inr hm, hty⟩
  rcases pid with _ | p
  · exact fall (by simpa using h)
  · dsimp only at h
    rcases hfind : tables.find? (fun tb => tb.id == p) with _ | pt
    · rw [hfind] at h
      exact fall (by simpa using h)
    · rw [hfind] at h
      dsimp only at h
      split at h
      · next hcond =>
        injection h with h3 h4
        injection h3 with h3
        subst h3
        exact ⟨List.mem_of_find?_eq_some hfind, hcond.2.1,
          Or.inl hcond.1, by rw [← h4]; intro w hw; cases hw⟩
      · exact fall h

-- ============================================
-- STATE EXTENSION RELATION
-- ============================================

/-- Extension of one table: identity fields preserved, guests appended. -/
def TableExt (t t' : Table) : Prop :=
  t'.id = t.id ∧ t'.number = t.number ∧ t'.name = t.name ∧
  t'.capacity = t.capacity ∧ ∃ add, t'.guests = t.guests ++ add

theorem tableExt_refl (t : Table) : TableExt t t :=
  ⟨rfl, rfl, rfl, rfl, [], by simp⟩

theorem tableExt_trans {a b c : Table} (h1 : TableExt a b) (h2 : TableExt b c) :
    TableExt a c := by
  obtain ⟨i1, n1, m1, c1, add1, g1⟩ := h1
  obtain ⟨i2, n2, m2, c2, add2, g2⟩ := h2
  exact ⟨i2.trans i1, n2.trans n1, m2.trans m1, c2.trans c1,
    add1 ++ add2, by rw [g2, g1, List.append_assoc]⟩

/-- Extension of a table list: pointwise table extension. -/
def TablesExt (l l' : List Table) : Prop := List.Forall₂ TableExt l l'

theorem tablesExt_refl : ∀ l : List Table, TablesExt l l
  | [] => List.Forall₂.nil
  | _ :: t => List.Forall₂.cons (tableExt_refl _) (tablesExt_refl t)

theorem tablesExt_trans : ∀ {l1 l2 l3 : List Table},
    TablesExt l1 l2 → TablesExt l2 l3 → TablesExt l1 l3
  | _, _, _, .nil, .nil => .nil
  | _, _, _, .cons h1 t1, .cons h2 t2 =>
    .cons (tableExt_trans h1 h2) (tablesExt_trans t1 t2)

theorem tablesExt_mem : ∀ {l l' : List Table}, TablesExt l l' → ∀ {t}, t ∈ l →
    ∃ t' ∈ l', TableExt t t'
  | _, _, .cons h1 t1, t, ht => by
    rcases List.mem_cons.mp ht with rfl | ht'
    · exact ⟨_, List.mem_cons_self .., h1⟩
    · obtain ⟨t', ht', he⟩ := tablesExt_mem t1 ht'
      exact ⟨t', List.mem_cons_of_mem _ ht', he⟩

theorem pushToTable_ext (l : List Table) (tid : Nat) (unit : List Guest) :
    TablesExt l (pushToTable l tid unit) := by
  induction l with
  | nil => exact .nil
  | cons t rest ih =>
    refine List.Forall₂.cons ?_ ih
    show TableExt t (if t.id = tid then { t with guests := t.guests ++ unit } else t)
    by_cases h : t.id = tid
    · rw [if_pos h]
      exact ⟨rfl, rfl, rfl, rfl, unit, rfl⟩
    · rw [if_neg h]
      exact tableExt_refl t

/-- One-step extension relation of the placement state. -/
def StateStep (s s' : PlaceState) : Prop :=
  TablesExt s.tables s'.tables ∧
  (∃ ws, s'.warnings = s.warnings ++ ws) ∧
  ∀ x ∈ s.placed, x ∈ s'.placed

theorem stateStep_refl (s : PlaceState) : StateStep s s :=
  ⟨tablesExt_refl _, ⟨[], by simp⟩, fun _ h => h⟩

theorem stateStep_trans {a b c : PlaceState} (h1 : StateStep a b)
    (h2 : StateStep b c) : StateStep a c := by
  obtain ⟨t1, ⟨w1, hw1⟩, p1⟩ := h1
  obtain ⟨t2, ⟨w2, hw2⟩, p2⟩ := h2
  exact ⟨tablesExt_trans t1 t2, ⟨w1 ++ w2, by rw [hw2, hw1, List.append_assoc]⟩,
    fun x hx => p2 x (p1 x hx)⟩

theorem commitUnit_step {bf : Bool} {st : PlaceState} {tid : Nat}
    {unit : List Guest} {ws : List Warning} {uf : Bool} :
    StateStep st (commitUnit bf st tid unit ws uf) :=
  ⟨pushToTable_ext _ _ _, ⟨ws, rfl⟩, fun x hx => List.mem_append_left _ hx⟩

theorem warnOnly_step {st : PlaceState} {msg : String} {unit : List Guest} :
    StateStep st (warnOnly st msg unit) :=
  ⟨tablesExt_refl _, ⟨_, rfl⟩, fun _ hx => hx⟩

theorem placeGuestStep_step (input : AlgorithmInput) (st : PlaceState)
    (guest : Guest) : StateStep st (placeGuestStep input st guest) := by
  apply placeGuestStep_elim
  · intro _; exact stateStep_refl st
  · intro t ws _ _; exact commitUnit_step
  · intro ht ws₀ _ _ _ _ _; exact commitUnit_step
  · intro msg _; exact warnOnly_step

theorem placeLoop_step (input : AlgorithmInput) :
    ∀ (l : List Guest) (st : PlaceState),
      StateStep st (l.foldl (placeGuestStep input) st)
  | [], st => stateStep_refl st
  | g :: t, st =>
    stateStep_trans (placeGuestStep_step input st g) (placeLoop_step input t _)

-- ============================================
-- GENERIC FORALL₂ HELPERS
-- ============================================

theorem forall₂_mem_left {α β : Type} {R : α → β → Prop} :
    ∀ {l : List α} {l' : List β}, List.Forall₂ R l l' → ∀ {a}, a ∈ l →
      ∃ b ∈ l', R a b
  | _, _, .cons h1 t1, a, ha => by
    rcases List.mem_cons.mp ha with rfl | ha'
    · exact ⟨_, List.mem_cons_self .., h1⟩
    · obtain ⟨b, hb, hr⟩ := forall₂_mem_left t1 ha'
      exact ⟨b, List.mem_cons_of_mem _ hb, hr⟩

theorem forall₂_mem_right {α β : Type} {R : α → β → Prop} :
    ∀ {l : List α} {l' : List β}, List.Forall₂ R l l' → ∀ {b}, b ∈ l' →
      ∃ a ∈ l, R a b
  | _, _, .cons h1 t1, b, hb => by
    rcases List.mem_cons.mp hb with rfl | hb'
    · exact ⟨_, List.mem_cons_self .., h1⟩
    · obtain ⟨a, ha, hr⟩ := forall₂_mem_right t1 hb'
      exact ⟨a, List.mem_cons_of_mem _ ha, hr⟩

-- ============================================
-- TABLES INVARIANT (capacity and structure)
-- ============================================

/-- Structural invariant of the working table list: distinct ids, only
the head carries number 1, capacities respected, and non-honor tables all
have the configured seat count. -/
def TablesInv (cfg : PlanConfiguration) (tables : List Table) : Prop :=
  (tables.map (·.id)).Nodup ∧
  (∀ t ∈ tables.drop 1, t.number ≠ 1) ∧
  (∀ t ∈ tables, t.guests.length ≤ t.capacity) ∧
  (∀ t ∈ tables, t.number ≠ 1 → t.capacity = cfg.seatsPerTable)

theorem pushToTable_mem {l : List Table} {tid : Nat} {unit : List Guest}
    {t' : Table} (h : t' ∈ pushToTable l tid unit) :
    ∃ t ∈ l, t' = if t.id = tid then { t with guests := t.guests ++ unit } else t := by
  rcases List.mem_map.mp h with ⟨t, ht, rfl⟩
  exact ⟨t, ht, rfl⟩

theorem pushToTable_map_id (l : List Table) (tid : Nat) (unit : List Guest) :
    (pushToTable l tid unit).map (·.id) = l.map (·.id) := by
  unfold pushToTable
  rw [List.map_map]
  apply List.map_congr_left
  intro t _
  by_cases h : t.id = tid <;> simp [h]

theorem pushToTable_drop (l : List Table) (tid : Nat) (unit : List Guest) :
    (pushToTable l tid unit).drop 1 = pushToTable (l.drop 1) tid unit := by
  unfold pushToTable
  exact (List.map_drop _ _ _).symm

theorem table_id_inj {tables : List Table}
    (hnd : (tables.map (·.id)).Nodup) {a b : Table}
    (ha : a ∈ tables) (hb : b ∈ tables) (hid : a.id = b.id) : a = b :=
  List.inj_on_of_nodup_map hnd ha hb hid

theorem commitUnit_tablesInv {cfg : PlanConfiguration} {bf : Bool}
    {st : PlaceState} {t₀ : Table} {unit : List Guest} {ws : List Warning}
    {uf : Bool} (hinv : TablesInv cfg st.tables) (ht₀ : t₀ ∈ st.tables)
    (hcap : t₀.guests.length + unit.length ≤ t₀.capacity) :
    TablesInv cfg (commitUnit bf st t₀.id unit ws uf).tables := by
  obtain ⟨hnd, hdrop, hcaps, hceq⟩ := hinv
  refine ⟨?_, ?_, ?_, ?_⟩
  · rw [show (commitUnit bf st t₀.id unit ws uf).tables =
        pushToTable st.tables t₀.id unit from rfl, pushToTable_map_id]
    exact hnd
  · intro t ht
    rw [show (commitUnit bf st t₀.id unit ws uf).tables =
        pushToTable st.tables t₀.id unit from rfl, pushToTable_drop] at ht
    obtain ⟨t₁, ht₁, heq⟩ := pushToTable_mem ht
    have : t.number = t₁.number := by
      rw [heq]; by_cases h : t₁.id = t₀.id <;> simp [h]
    rw [this]
    exact hdrop t₁ ht₁
  · intro t ht
    obtain ⟨t₁, ht₁, heq⟩ := pushToTable_mem ht
    by_cases h : t₁.id = t₀.id
    · have ht₁eq : t₁ = t₀ := table_id_inj hnd ht₁ ht₀ h
      subst ht₁eq
      rw [heq, if_pos h]
      simpa using hcap
    · rw [heq, if_neg h]
      exact hcaps t₁ ht₁
  · intro t ht hn
    obtain ⟨t₁, ht₁, heq⟩ := pushToTable_mem ht
    have hnum : t.number = t₁.number := by
      rw [heq]; by_cases h : t₁.id = t₀.id <;> simp [h]
    have hcapeq : t.capacity = t₁.capacity := by
      rw [heq]; by_cases h : t₁.id = t₀.id <;> simp [h]
    rw [hcapeq]
    exact hceq t₁ ht₁ (hnum ▸ hn)

theorem placeGuestStep_tablesInv (input : AlgorithmInput) (st : PlaceState)
    (guest : Guest) (hinv : TablesInv input.configuration st.tables) :
    TablesInv input.configuration (placeGuestStep input st guest).tables := by
  refine placeGuestStep_elim input st guest
    (fun s => TablesInv input.configuration s.tables) ?_ ?_ ?_ ?_
  · intro _; exact hinv
  · intro t ws _ hfs
    obtain ⟨hmem, hcap, hnum, _⟩ := findSuitableTableWithFamilyPreference_some hfs
    have hne1 : t.number ≠ 1 := by
      rcases hnum with h' | h'
      · exact h'
      · exact hinv.2.1 t h'
    have hcapeq : t.capacity = input.configuration.seatsPerTable :=
      hinv.2.2.2 t hmem hne1
    exact commitUnit_tablesInv hinv hmem (by rw [hcapeq]; exact hcap)
  · intro ht ws₀ _ _ hfind hcap _
    exact commitUnit_tablesInv hinv (List.mem_of_find?_eq_some hfind) hcap
  · intro msg _; exact hinv

theorem placeLoop_tablesInv (input : AlgorithmInput) :
    ∀ (l : List Guest) (st : PlaceState),
      TablesInv input.configuration st.tables →
      TablesInv input.configuration ((l.foldl (placeGuestStep input) st).tables)
  | [], _, hinv => hinv
  | g :: t, st, hinv =>
    placeLoop_tablesInv input t _ (placeGuestStep_tablesInv input st g hinv)

theorem initialTables_inv {input : AlgorithmInput}
    (hnd : (input.guests.map (·.id)).Nodup)
    (hval : (validateConfiguration input).isValid = true) :
    TablesInv input.configuration (initialTables input) := by
  refine ⟨?_, ?_, ?_, ?_⟩
  · have hmap : (initialTables input).map (·.id) =
        0 :: (List.range input.configuration.numberOfTables).map (fun i => i + 1) := by
      unfold initialTables
      rw [List.map_cons, List.map_map]
      rfl
    rw [hmap]
    refine List.nodup_cons.mpr ⟨?_, ?_⟩
    · intro h
      rcases List.mem_map.mp h with ⟨i, _, hi⟩
      exact Nat.succ_ne_zero i hi
    · exact (List.nodup_range _).map fun a b h => Nat.succ_injective h
  · intro t ht
    simp only [initialTables, List.drop_succ_cons, List.drop_zero] at ht
    rcases List.mem_map.mp ht with ⟨i, _, rfl⟩
    simp [regularTableInit]
  · intro t ht
    rcases List.mem_cons.mp ht with rfl | ht'
    · show (input.guests.filter fun g => g.id ∈ honorGuestIds input).length ≤
        input.configuration.honorTableSeats
      rw [length_filter_mem_ids hnd (honorGuestIds_nodup input)
        (fun x hx => honorGuestIds_sub hx)]
      exact valid_honor_le hval
    · rcases List.mem_map.mp ht' with ⟨i, _, rfl⟩
      simp [regularTableInit]
  · intro t ht hn
    rcases List.mem_cons.mp ht with rfl | ht'
    · exact absurd rfl hn
    · rcases List.mem_map.mp ht' with ⟨i, _, rfl⟩
      rfl

theorem generateCore_tablesInv {input : AlgorithmInput}
    (hnd : (input.guests.map (·.id)).Nodup)
    (hval : (validateConfiguration input).isValid = true) :
    TablesInv input.configuration (generateCore input).tables :=
  placeLoop_tablesInv input _ _ (initialTables_inv hnd hval)

-- ============================================
-- SHUFFLE LEMMAS
-- ============================================

theorem listSwap_perm {α : Type} [DecidableEq α] (l : List α) (i j : Nat) :
    (listSwap l i j).Perm l := by
  unfold listSwap
  rcases hi : l[i]? with _ | a
  · exact List.Perm.refl l
  · rcases hj : l[j]? with _ | b
    · exact List.Perm.refl l
    · obtain ⟨hilen, hia⟩ := List.getElem?_eq_some.mp hi
      obtain ⟨hjlen, hjb⟩ := List.getElem?_eq_some.mp hj
      rw [List.perm_iff_count]
      intro x
      have hjlen' : j < (l.set i b).length := by simpa using hjlen
      have hval : (l.set i b)[j] = b := by
        rw [List.getElem_set]
        split
        · rfl
        · exact hjb
      rw [List.count_set _ _ _ _ hjlen', List.count_set _ _ _ _ hilen, hval, hia]
      have hmem : a ∈ l := by rw [← hia]; exact List.getElem_mem hilen
      by_cases hax : (a == x) = true
      · have hxc : 1 ≤ List.count x l := by
          rw [← beq_iff_eq.mp hax]
          exact List.count_pos_iff_mem.mpr hmem
        by_cases hbx : (b == x) = true <;> simp [hax, hbx] <;> omega
      · by_cases hbx : (b == x) = true <;> simp [hax, hbx] <;> omega

theorem fisherYates_perm {α : Type} [DecidableEq α] :
    ∀ (i : Nat) (l : List α) (rand : List Nat),
      ((fisherYates l rand i).1).Perm l
  | 0, l, _ => List.Perm.refl l
  | i + 1, l, rand =>
    (fisherYates_perm i _ _).trans (listSwap_perm l (i + 1) _)

/-- Relation between a table before and after the shuffle pass. -/
def ShuffleRel (t t' : Table) : Prop :=
  t'.id = t.id ∧ t'.number = t.number ∧ t'.name = t.name ∧
  t'.capacity = t.capacity ∧ t'.guests.Perm t.guests ∧
  (t.number = 1 → t'.guests = t.guests)

theorem shuffleTables_forall₂ : ∀ (tables : List Table) (rand : List Nat),
    List.Forall₂ ShuffleRel tables (shuffleTables tables rand)
  | [], _ => .nil
  | t :: rest, rand => by
    unfold shuffleTables
    by_cases h : t.number ≠ 1
    · rw [if_pos h]
      rcases hfy : fisherYates t.guests rand (t.guests.length - 1) with ⟨g, r⟩
      have hperm : g.Perm t.guests := by
        have := fisherYates_perm (t.guests.length - 1) t.guests rand
        rwa [hfy] at this
      exact .cons ⟨rfl, rfl, rfl, rfl, hperm, fun h1 => absurd h1 h⟩
        (shuffleTables_forall₂ rest r)
    · rw [if_neg h]
      exact .cons ⟨rfl, rfl, rfl, rfl, List.Perm.refl _, fun _ => rfl⟩
        (shuffleTables_forall₂ rest rand)

-- ============================================
-- WARNING TYPE INVARIANT
-- ============================================

/-- All recorded warnings carry the exclusion tag. -/
def WarnInv (s : PlaceState) : Prop :=
  ∀ w ∈ s.warnings, w.type = .exclusion_violated

theorem placeGuestStep_warnInv (input : AlgorithmInput) (st : PlaceState)
    (guest : Guest) (hinv : WarnInv st) :
    WarnInv (placeGuestStep input st guest) := by
  refine placeGuestStep_elim input st guest WarnInv ?_ ?_ ?_ ?_
  · intro _; exact hinv
  · intro t ws _ hfs
    intro w hw
    rcases List.mem_append.mp hw with h | h
    · exact hinv w h
    · exact (findSuitableTableWithFamilyPreference_some hfs).2.2.2 w h
  · intro ht ws₀ _ _ _ _ _
    intro w hw
    rcases List.mem_append.mp hw with h | h
    · exact hinv w h
    · rcases List.mem_singleton.mp h with rfl
      rfl
  · intro msg _
    intro w hw
    rcases List.mem_append.mp hw with h | h
    · exact hinv w h
    · rcases List.mem_singleton.mp h with rfl
      rfl

theorem placeLoop_warnInv (input : AlgorithmInput) :
    ∀ (l : List Guest) (st : PlaceState), WarnInv st →
      WarnInv (l.foldl (placeGuestStep input) st)
  | [], _, hinv => hinv
  | g :: t, st, hinv =>
    placeLoop_warnInv input t _ (placeGuestStep_warnInv input st g hinv)

theorem generateCore_warnInv (input : AlgorithmInput) :
    WarnInv (generateCore input) :=
  placeLoop_warnInv input _ _ (fun _ h => absurd h (List.not_mem_nil _))

-- ============================================
-- CLAIM THEOREMS
-- ============================================

/-- Helper to build concrete guests for witness inputs. -/
def mkGuest (i : Nat) (fn : String) (ln : Option String) (r : GuestRole) : Guest :=
  { id := i, firstName := fn, lastName := ln, age := none, role := r }

/-- Sorting criteria with every flag off. -/
def critNone : SortingCriteria :=
  { byFamily := false, byAge := false, byRole := false, random := false }

/-- C1: after a successful generate, every guest whose role is married
(primary-honoree) or witness appears in the guest list of the table with
number 1, and so does the couple partner of that guest when one resolves,
under every configuration of sorting criteria. -/
theorem C1_honor_table_membership {input : AlgorithmInput} {rand : List Nat}
    {g : Guest} (hsucc : (generateSeatingPlan input rand).success = true)
    (hg : g ∈ input.guests) (hrole : g.role = .married ∨ g.role = .witness) :
    ∃ t ∈ (generateSeatingPlan input rand).tables, t.number = 1 ∧ g ∈ t.guests ∧
      ∀ p, getCouplePartner g input.couples input.guests = some p →
        p ∈ t.guests := by
  have hval : (validateConfiguration input).isValid = true := by
    rw [← generate_success_iff]; exact hsucc
  have ghr : g ∈ honorRoleGuests input :=
    List.mem_filter.mpr ⟨hg, by rcases hrole with h | h <;> simp [h]⟩
  have ht₀mem : honorTableInit input ∈ initialTables input := by
    unfold initialTables
    exact List.mem_cons_self ..
  have hgmem : g ∈ input.guests.filter fun gg => gg.id ∈ honorGuestIds input :=
    List.mem_filter.mpr ⟨hg, by simpa using honorGuestIds_mem_self ghr⟩
  have hpmem : ∀ p, getCouplePartner g input.couples input.guests = some p →
      p ∈ input.guests.filter fun gg => gg.id ∈ honorGuestIds input := fun p hp =>
    List.mem_filter.mpr ⟨getCouplePartner_mem hp,
      by simpa using honorGuestIds_mem_partner ghr hp⟩
  have hstep := placeLoop_step input (orderedGuestsOf input)
    { tables := initialTables input, warnings := [],
      placed := honorGuestIds input, familyMap := [] }
  obtain ⟨t₁, ht₁mem, hext⟩ := tablesExt_mem hstep.1 ht₀mem
  obtain ⟨_, hnum, _, _, add, hguests⟩ := hext
  have hg₁ : g ∈ t₁.guests := by
    rw [hguests]; exact List.mem_append_left _ hgmem
  have hp₁ : ∀ p, getCouplePartner g input.couples input.guests = some p →
      p ∈ t₁.guests := fun p hp => by
    rw [hguests]; exact List.mem_append_left _ (hpmem p hp)
  obtain ⟨htab, _⟩ := @generate_tables_of_valid _ rand hval
  rw [htab]
  by_cases hr : input.configuration.sortingCriteria.random
  · rw [if_pos hr]
    obtain ⟨t₂, ht₂mem, hrel⟩ :=
      forall₂_mem_left (shuffleTables_forall₂ (generateCore input).tables rand) ht₁mem
    obtain ⟨_, hnum₂, _, _, hperm, _⟩ := hrel
    refine ⟨t₂, ht₂mem, by rw [hnum₂, hnum]; rfl, hperm.mem_iff.mpr hg₁,
      fun p hp => hperm.mem_iff.mpr (hp₁ p hp)⟩
  · rw [if_neg hr]
    exact ⟨t₁, ht₁mem, by rw [hnum]; rfl, hg₁, hp₁⟩

/-- Concrete input of the C1 witness: a married guest with a partner, a
witness guest, and a regular guest. -/
def inputC1 : AlgorithmInput :=
  { guests := [mkGuest 1 "M" none .married, mkGuest 2 "P" none .regular,
      mkGuest 3 "W" none .witness, mkGuest 4 "D" none .regular],
    couples := [{ id := 10, guestAId := 1, guestBId := 2 }],
    exclusions := [],
    configuration :=
      { totalGuests := 4, numberOfTables := 1, seatsPerTable := 2,
        honorTableSeats := 3, sortingCriteria := critNone } }

theorem C1_honor_table_membership_witness :
    ((generateSeatingPlan inputC1 []).success = true ∧
      mkGuest 1 "M" none .married ∈ inputC1.guests) ∧
    ∃ t ∈ (generateSeatingPlan inputC1 []).tables, t.number = 1 ∧
      mkGuest 1 "M" none .married ∈ t.guests ∧
      ∀ p, getCouplePartner (mkGuest 1 "M" none .married) inputC1.couples
        inputC1.guests = some p → p ∈ t.guests :=
  ⟨⟨by decide, by decide⟩,
    C1_honor_table_membership (by decide) (by decide) (Or.inl rfl)⟩

/-- C2: after a successful generate (validation passed) on a roster with
distinct guest ids, every table of the result satisfies
`guests.length ≤ capacity`. -/
theorem C2_capacity_invariant {input : AlgorithmInput} {rand : List Nat}
    (hnd : (input.guests.map (·.id)).Nodup)
    (hsucc : (generateSeatingPlan input rand).success = true) :
    ∀ t ∈ (generateSeatingPlan input rand).tables,
      t.guests.length ≤ t.capacity := by
  have hval : (validateConfiguration input).isValid = true := by
    rw [← generate_success_iff]; exact hsucc
  obtain ⟨htab, _⟩ := @generate_tables_of_valid _ rand hval
  rw [htab]
  have hinv := generateCore_tablesInv hnd hval
  by_cases hr : input.configuration.sortingCriteria.random
  · rw [if_pos hr]
    intro t' ht'
    obtain ⟨t, ht, hrel⟩ := forall₂_mem_right
      (shuffleTables_forall₂ (generateCore input).tables rand) ht'
    obtain ⟨_, _, _, hcap, hperm, _⟩ := hrel
    rw [hcap, hperm.length_eq]
    exact hinv.2.2.1 t ht
  · rw [if_neg hr]
    exact hinv.2.2.1

/-- Concrete input of the C2 witness. -/
def inputC2 : AlgorithmInput :=
  { guests := [mkGuest 1 "A" none .regular, mkGuest 2 "B" none .regular,
      mkGuest 3 "C" none .regular],
    couples := [{ id := 10, guestAId := 1, guestBId := 2 }],
    exclusions := [{ id := 20, guestAId := 1, guestBId := 3 }],
    configuration :=
      { totalGuests := 3, numberOfTables := 2, seatsPerTable := 2,
        honorTableSeats := 2, sortingCriteria := critNone } }

theorem C2_capacity_invariant_witness :
    ((inputC2.guests.map (·.id)).Nodup ∧
      (generateSeatingPlan inputC2 []).success = true) ∧
    ∀ t ∈ (generateSeatingPlan inputC2 []).tables,
      t.guests.length ≤ t.capacity :=
  ⟨⟨by decide, by decide⟩, C2_capacity_invariant (by decide) (by decide)⟩

/-- C7: with the random criterion disabled, the result of a run does not
depend on the random stream at all: two runs on the same input produce
the same tables (numbers, names and guest sequences) and warnings. -/
theorem C7_deterministic_without_random (input : AlgorithmInput)
    (r1 r2 : List Nat)
    (h : input.configuration.sortingCriteria.random = false) :
    generateSeatingPlan input r1 = generateSeatingPlan input r2 := by
  simp [generateSeatingPlan, h]

/-- Concrete input of the C7 witness. -/
def inputC7 : AlgorithmInput :=
  { guests := [mkGuest 1 "A" none .regular, mkGuest 2 "B" none .regular],
    couples := [],
    exclusions := [],
    configuration :=
      { totalGuests := 2, numberOfTables := 1, seatsPerTable := 2,
        honorTableSeats := 2, sortingCriteria := critNone } }

theorem C7_deterministic_without_random_witness :
    inputC7.configuration.sortingCriteria.random = false ∧
    generateSeatingPlan inputC7 [0] = generateSeatingPlan inputC7 [5, 7, 11] :=
  ⟨by decide, C7_deterministic_without_random inputC7 [0] [5, 7, 11] (by decide)⟩

/-- C10: every warning any run emits has type `exclusion_violated`; in
particular the declared types `family_split` and `age_mismatch` are never
produced. -/
theorem C10_warning_types (input : AlgorithmInput) (rand : List Nat) :
    ∀ w ∈ (generateSeatingPlan input rand).warnings,
      w.type = .exclusion_violated := by
  intro w hw
  by_cases hv : (validateConfiguration input).isValid = true
  · obtain ⟨_, hwarn⟩ := @generate_tables_of_valid _ rand hv
    rw [hwarn] at hw
    exact generateCore_warnInv input w hw
  · have hv' : (validateConfiguration input).isValid = false := by
      revert hv; cases (validateConfiguration input).isValid <;> simp
    simp [generateSeatingPlan, hv'] at hw

/-- Concrete input of the C10 witness: one regular table with a single
seat forces honor-table and cannot-place warnings. -/
def inputC10 : AlgorithmInput :=
  { guests := [mkGuest 1 "A" none .regular, mkGuest 2 "B" none .regular,
      mkGuest 3 "C" none .regular],
    couples := [],
    exclusions := [],
    configuration :=
      { totalGuests := 3, numberOfTables := 1, seatsPerTable := 1,
        honorTableSeats := 1, sortingCriteria := critNone } }

theorem C10_warning_types_witness :
    honorWarning [mkGuest 2 "B" none .regular] ∈
      (generateSeatingPlan inputC10 []).warnings ∧
    (honorWarning [mkGuest 2 "B" none .regular]).type = .exclusion_violated :=
  ⟨by decide,
    C10_warning_types inputC10 [] (honorWarning [mkGuest 2 "B" none .regular])
      (by decide)⟩

/-- C8: with the random criterion enabled, the published tables relate to
the placement tables pointwise: identity, number, name and capacity are
unchanged, every guest list is a permutation of the placed list, and the
honor table (number 1) keeps its exact guest sequence. -/
theorem C8_shuffle_frame {input : AlgorithmInput} {rand : List Nat}
    (hrand : input.configuration.sortingCriteria.random = true)
    (hsucc : (generateSeatingPlan input rand).success = true) :
    List.Forall₂ ShuffleRel (generateCore input).tables
      (generateSeatingPlan input rand).tables := by
  have hval : (validateConfiguration input).isValid = true := by
    rw [← generate_success_iff]; exact hsucc
  obtain ⟨htab, _⟩ := @generate_tables_of_valid _ rand hval
  rw [htab, if_pos hrand]
  exact shuffleTables_forall₂ _ _

/-- Sorting criteria with only the random flag on. -/
def critRandom : SortingCriteria :=
  { byFamily := false, byAge := false, byRole := false, random := true }

/-- Concrete input of the C8 witness. -/
def inputC8 : AlgorithmInput :=
  { guests := [mkGuest 1 "A" none .regular, mkGuest 2 "B" none .regular,
      mkGuest 3 "C" none .regular],
    couples := [],
    exclusions := [],
    configuration :=
      { totalGuests := 3, numberOfTables := 1, seatsPerTable := 4,
        honorTableSeats := 2, sortingCriteria := critRandom } }

theorem C8_shuffle_frame_witness :
    (inputC8.configuration.sortingCriteria.random = true ∧
      (generateSeatingPlan inputC8 [1, 2]).success = true) ∧
    List.Forall₂ ShuffleRel (generateCore inputC8).tables
      (generateSeatingPlan inputC8 [1, 2]).tables :=
  ⟨⟨by decide, by decide⟩, C8_shuffle_frame (by decide) (by decide)⟩

/-- C4: a couple pair that is also an exclusion pair makes validation
fail with the conflict message for that pair, and the run returns the
failure result carrying the validation errors verbatim with no tables
and no warnings. -/
theorem C4_couple_exclusion_rejected {input : AlgorithmInput}
    {rand : List Nat} {c : Couple} {e : ExclusionConstraint} {ga gb : Guest}
    (hc : c ∈ input.couples) (he : e ∈ input.exclusions)
    (hpair : (e.guestAId = c.guestAId ∧ e.guestBId = c.guestBId) ∨
      (e.guestBId = c.guestAId ∧ e.guestAId = c.guestBId))
    (hga : input.guests.find? (fun g => g.id == c.guestAId) = some ga)
    (hgb : input.guests.find? (fun g => g.id == c.guestBId) = some gb) :
    (validateConfiguration input).isValid = false ∧
    coupleConflictMessage ga gb ∈ (validateConfiguration input).errors ∧
    generateSeatingPlan input rand =
      { success := false, tables := [], warnings := [],
        errors := (validateConfiguration input).errors } := by
  have hne : input.guests ≠ [] :=
    List.ne_nil_of_mem (List.mem_of_find?_eq_some hga)
  have hhas : exclusionGraphHas input.guests input.exclusions
      c.guestAId c.guestBId = true := by
    unfold exclusionGraphHas
    rw [Bool.and_eq_true]
    constructor
    · have hpred := List.find?_some hga
      exact List.any_eq_true.mpr ⟨ga, List.mem_of_find?_eq_some hga, hpred⟩
    · refine List.any_eq_true.mpr ⟨e, he, ?_⟩
      rcases hpair with ⟨h1, h2⟩ | ⟨h1, h2⟩
      · simp [h1, h2]
      · simp [h1, h2]
  have hmsg : coupleConflictMessage ga gb ∈ coupleErrorsOf input := by
    unfold coupleErrorsOf
    refine List.mem_flatMap.mpr ⟨c, hc, ?_⟩
    rw [if_pos hhas, hga, hgb]
    exact List.mem_singleton.mpr rfl
  have hmem : coupleConflictMessage ga gb ∈ validationErrors input := by
    unfold validationErrors
    exact List.mem_append_left _ (List.mem_append_right _ hmsg)
  have hvalid : (validateConfiguration input).isValid = false := by
    rw [validateConfiguration_isValid_of_ne hne]
    rcases hie : (validationErrors input).isEmpty with _ | _
    · rfl
    · exact absurd (List.isEmpty_iff.mp hie ▸ hmem) (List.not_mem_nil _)
  refine ⟨hvalid, ?_, ?_⟩
  · rw [validateConfiguration_errors_of_ne hne]
    exact hmem
  · simp [generateSeatingPlan, hvalid]

/-- Concrete input of the C4 witness: guests 1 and 2 are a couple and
also an exclusion pair (sides swapped). -/
def inputC4 : AlgorithmInput :=
  { guests := [mkGuest 1 "A" none .regular, mkGuest 2 "B" none .regular],
    couples := [{ id := 10, guestAId := 1, guestBId := 2 }],
    exclusions := [{ id := 20, guestAId := 2, guestBId := 1 }],
    configuration :=
      { totalGuests := 2, numberOfTables := 1, seatsPerTable := 2,
        honorTableSeats := 2, sortingCriteria := critNone } }

theorem C4_couple_exclusion_rejected_witness :
    ((validateConfiguration inputC4).isValid = false ∧
      coupleConflictMessage (mkGuest 1 "A" none .regular)
        (mkGuest 2 "B" none .regular) ∈ (validateConfiguration inputC4).errors) ∧
    generateSeatingPlan inputC4 [] =
      { success := false, tables := [], warnings := [],
        errors := (validateConfiguration inputC4).errors } := by
  have h := @C4_couple_exclusion_rejected inputC4 []
    { id := 10, guestAId := 1, guestBId := 2 }
    { id := 20, guestAId := 2, guestBId := 1 }
    (mkGuest 1 "A" none .regular) (mkGuest 2 "B" none .regular)
    (by decide) (by decide) (Or.inr ⟨rfl, rfl⟩) (by decide) (by decide)
  exact ⟨⟨h.1, h.2.1⟩, h.2.2⟩

-- ============================================
-- CLAIM C5 (corrected)
-- ============================================

theorem coupleDfs_nil (fuel gid : Nat) (v g : List Nat) :
    coupleDfs [] (fuel + 1) gid (v, g) =
      if gid ∈ v then (v, g) else (v ++ [gid], g ++ [gid]) := by
  simp [coupleDfs]

theorem coupleGroupStep_nil_bound {m : Nat}
    {st : List Nat × List (List Nat)} {guest : Guest}
    (h : ∀ gl ∈ st.2, gl.length ≤ 1) :
    ∀ gl ∈ (coupleGroupStep [] (m + 1) st guest).2, gl.length ≤ 1 := by
  unfold coupleGroupStep
  by_cases hmem : guest.id ∈ st.1
  · rw [if_pos hmem]; exact h
  · rw [if_neg hmem]
    intro gl hgl
    rw [coupleDfs_nil, if_neg hmem] at hgl
    rcases (by simpa using hgl : gl ∈ st.2 ∨ gl = [guest.id]) with h' | rfl
    · exact h gl h'
    · simp

theorem coupleGroups_foldl_nil_bound {m : Nat} :
    ∀ (gs : List Guest) (st : List Nat × List (List Nat)),
      (∀ gl ∈ st.2, gl.length ≤ 1) →
      ∀ gl ∈ (gs.foldl (coupleGroupStep [] (m + 1)) st).2, gl.length ≤ 1
  | [], _, h => h
  | _ :: t, st, h =>
    coupleGroups_foldl_nil_bound t _ (coupleGroupStep_nil_bound h)

theorem findCoupleGroups_nil (guests : List Guest) :
    findCoupleGroups guests [] = [] := by
  unfold findCoupleGroups
  rw [List.filter_eq_nil_iff]
  intro gl hgl
  have hb : gl.length ≤ 1 := by
    have := @coupleGroups_foldl_nil_bound (guests.length + 1) guests
      ([], []) (fun _ h => absurd h (List.not_mem_nil _))
    have harith : guests.length + 2 * ([] : List Couple).length + 2 =
        (guests.length + 1) + 1 := by simp
    rw [harith] at hgl
    exact this gl hgl
  simp only [gt_iff_lt, decide_eq_true_eq]
  omega

/-- C5 holds amended: the validator has no total-capacity check.  With a
nonempty roster, no couples, no exclusions and the honor set within honor
capacity, validation succeeds and the run reports success even when the
guest count exceeds the combined seats; the overflow surfaces only as
placement warnings. -/
theorem C5_amended_no_total_capacity_check {input : AlgorithmInput}
    (rand : List Nat) (hne : input.guests ≠ [])
    (hcp : input.couples = []) (hex : input.exclusions = [])
    (hhonor : (honorGuestIds input).length ≤ input.configuration.honorTableSeats)
    (hover : input.guests.length >
      input.configuration.numberOfTables * input.configuration.seatsPerTable +
        input.configuration.honorTableSeats) :
    (validateConfiguration input).isValid = true ∧
    (generateSeatingPlan input rand).success = true := by
  have herr : validationErrors input = [] := by
    unfold validationErrors
    have h1 : honorErrorsOf input = [] := by
      unfold honorErrorsOf
      rw [if_neg (Nat.not_lt.mpr hhonor)]
    have h2 : coupleErrorsOf input = [] := by
      unfold coupleErrorsOf
      rw [hcp]
      rfl
    have h3 : groupErrorsOf input = [] := by
      unfold groupErrorsOf
      rw [hcp, findCoupleGroups_nil]
      rfl
    rw [h1, h2, h3]
    rfl
  have hvalid : (validateConfiguration input).isValid = true := by
    rw [validateConfiguration_isValid_of_ne hne, herr]
    rfl
  exact ⟨hvalid, by rw [generate_success_iff]; exact hvalid⟩

/-- Concrete counterexample input of C5: five guests, one regular table
of two seats and a two-seat honor table (total capacity four). -/
def cexC5 : AlgorithmInput :=
  { guests := [mkGuest 1 "A" none .regular, mkGuest 2 "B" none .regular,
      mkGuest 3 "C" none .regular, mkGuest 4 "D" none .regular,
      mkGuest 5 "E" none .regular],
    couples := [],
    exclusions := [],
    configuration :=
      { totalGuests := 5, numberOfTables := 1, seatsPerTable := 2,
        honorTableSeats := 2, sortingCriteria := critNone } }

/-- C5 as stated is false: this input exceeds the total capacity
(5 guests for 4 seats) with no exclusions, yet `validate` reports no
error and `generate` succeeds instead of short-circuiting. -/
theorem C5_counterexample :
    cexC5.guests.length >
      cexC5.configuration.numberOfTables * cexC5.configuration.seatsPerTable +
        cexC5.configuration.honorTableSeats ∧
    (validateConfiguration cexC5).isValid = true ∧
    (validateConfiguration cexC5).errors = [] ∧
    (generateSeatingPlan cexC5 []).success = true :=
  ⟨by decide, by decide, by decide, by decide⟩

theorem C5_amended_witness :
    (cexC5.guests ≠ [] ∧ cexC5.couples = [] ∧ cexC5.exclusions = [] ∧
      (honorGuestIds cexC5).length ≤ cexC5.configuration.honorTableSeats ∧
      cexC5.guests.length >
        cexC5.configuration.numberOfTables * cexC5.configuration.seatsPerTable +
          cexC5.configuration.honorTableSeats) ∧
    (validateConfiguration cexC5).isValid = true ∧
    (generateSeatingPlan cexC5 []).success = true :=
  ⟨⟨by decide, rfl, rfl, by decide, by decide⟩,
    C5_amended_no_total_capacity_check [] (by decide) rfl rfl (by decide)
      (by decide)⟩

-- ============================================
-- CLAIM C6 (corrected)
-- ============================================

/-- Claim wording of C6: in the placement order, every guest referenced
by at least one exclusion precedes every guest referenced by none. -/
def ExclusionRefsFirst (input : AlgorithmInput) : Prop :=
  (orderedGuestsOf input).Pairwise fun a b =>
    hasExclRef input.exclusions b = true → hasExclRef input.exclusions a = true

/-- Concrete counterexample input of C6: family grouping on, a family of
three without exclusions and a singleton family with an exclusion. -/
def cexC6 : AlgorithmInput :=
  { guests := [mkGuest 1 "B1" (some "Big") .regular,
      mkGuest 2 "B2" (some "Big") .regular,
      mkGuest 3 "B3" (some "Big") .regular,
      mkGuest 4 "S" (some "Small") .regular],
    couples := [],
    exclusions := [{ id := 20, guestAId := 4, guestBId := 1 }],
    configuration :=
      { totalGuests := 4, numberOfTables := 2, seatsPerTable := 4,
        honorTableSeats := 2,
        sortingCriteria :=
          { byFamily := true, byAge := false, byRole := false, random := false } } }

/-- C6 as stated is false: with family grouping enabled, the extended
family groups are ordered largest first, so the exclusion-referenced
singleton guest comes after unreferenced members of the large family. -/
theorem C6_counterexample :
    cexC6.configuration.sortingCriteria.byFamily = true ∧
    ¬ ExclusionRefsFirst cexC6 := by
  refine ⟨by decide, fun h => ?_⟩
  unfold ExclusionRefsFirst at h
  have hl : orderedGuestsOf cexC6 = [mkGuest 1 "B1" (some "Big") .regular,
      mkGuest 2 "B2" (some "Big") .regular, mkGuest 3 "B3" (some "Big") .regular,
      mkGuest 4 "S" (some "Small") .regular] := by decide
  rw [hl] at h
  have h2tail := (List.pairwise_cons.mp h).2
  have h24 := (List.pairwise_cons.mp h2tail).1
  have hrel := h24 (mkGuest 4 "S" (some "Small") .regular) (by decide)
  exact absurd (hrel (by decide)) (by decide)

theorem exclCompare_le_iff {excl : List ExclusionConstraint} {a b : Guest} :
    exclCompare excl a b ≤ 0 ↔
      (hasExclRef excl b = true → hasExclRef excl a = true) := by
  unfold exclCompare
  rcases ha : hasExclRef excl a <;> rcases hb : hasExclRef excl b <;>
    simp [ha, hb] <;> decide

/-- C6 holds amended: when family grouping is disabled, every non-auto-
generated guest referenced by an exclusion precedes every non-auto-
generated guest referenced by none in the placement order (auto-generated
filler guests are always moved to the tail regardless of exclusions). -/
theorem C6_amended_exclusion_refs_first {input : AlgorithmInput}
    (hfam : input.configuration.sortingCriteria.byFamily = false) :
    (orderedGuestsOf input).Pairwise fun a b =>
      isAutoGeneratedGuest a = false → isAutoGeneratedGuest b = false →
      hasExclRef input.exclusions b = true → hasExclRef input.exclusions a = true := by
  unfold orderedGuestsOf buildOrderedGuests
  simp only [hfam, Bool.false_eq_true, if_false]
  rw [List.pairwise_append]
  refine ⟨?_, ?_, ?_⟩
  · haveI htot : IsTotal Guest (fun a b => exclCompare input.exclusions a b ≤ 0) := by
      constructor
      intro a b
      rcases ha : hasExclRef input.exclusions a <;>
        rcases hb : hasExclRef input.exclusions b <;>
        simp [exclCompare_le_iff, ha, hb]
    haveI htr : IsTrans Guest (fun a b => exclCompare input.exclusions a b ≤ 0) := by
      constructor
      intro a b c hab hbc
      rw [exclCompare_le_iff] at hab hbc ⊢
      exact fun hc => hab (hbc hc)
    have hs := List.sorted_insertionSort
      (fun a b => exclCompare input.exclusions a b ≤ 0)
      (List.filter (fun g => !isAutoGeneratedGuest g)
        (sortGuests (input.guests.filter fun g => g.id ∉ honorGuestIds input)
          input.configuration input.exclusions))
    refine hs.imp ?_
    intro a b hab
    intro _ _
    exact exclCompare_le_iff.mp hab
  · have hall : ∀ a ∈ List.filter (fun g => isAutoGeneratedGuest g)
        (sortGuests (input.guests.filter fun g => g.id ∉ honorGuestIds input)
          input.configuration input.exclusions),
        isAutoGeneratedGuest a = true := fun a ha => (List.mem_filter.mp ha).2
    refine List.pairwise_of_forall_mem_list ?_
    intro a ha b _ hauto
    exact absurd (hall a ha) (by rw [hauto]; exact Bool.false_ne_true)
  · intro a _ b hb hauta hautb
    have : isAutoGeneratedGuest b = true :=
      (List.mem_filter.mp hb).2
    exact absurd this (by rw [hautb]; exact Bool.false_ne_true)

/-- Concrete input of the C6 amended witness: family grouping off. -/
def inputC6w : AlgorithmInput :=
  { guests := [mkGuest 1 "A" none .regular, mkGuest 2 "B" none .regular,
      mkGuest 3 "C" none .regular],
    couples := [],
    exclusions := [{ id := 20, guestAId := 3, guestBId := 2 }],
    configuration :=
      { totalGuests := 3, numberOfTables := 1, seatsPerTable := 4,
        honorTableSeats := 2, sortingCriteria := critNone } }

theorem C6_amended_exclusion_refs_first_witness :
    inputC6w.configuration.sortingCriteria.byFamily = false ∧
    (orderedGuestsOf inputC6w).Pairwise fun a b =>
      isAutoGeneratedGuest a = false → isAutoGeneratedGuest b = false →
      hasExclRef inputC6w.exclusions b = true →
      hasExclRef inputC6w.exclusions a = true :=
  ⟨by decide, C6_amended_exclusion_refs_first (by decide)⟩

-- ============================================
-- CLAIM C9 (seated at most once)
-- ============================================

/-- All seated guest ids across all tables, in order. -/
def seatedIds (tables : List Table) : List Nat :=
  tables.flatMap fun t => t.guests.map (·.id)

/-- Seated ids are duplicate-free and covered by the placed set. -/
def SeatInv (s : PlaceState) : Prop :=
  (seatedIds s.tables).Nodup ∧ ∀ x ∈ seatedIds s.tables, x ∈ s.placed

theorem pushToTable_eq_self {l : List Table} {tid : Nat} {unit : List Guest}
    (h : ∀ t ∈ l, t.id ≠ tid) : pushToTable l tid unit = l := by
  unfold pushToTable
  rw [List.map_congr_left fun t ht => by rw [if_neg (h t ht)]]
  exact List.map_id _

theorem seatedIds_pushToTable {tables : List Table} {tid : Nat}
    {unit : List Guest} (hnd : (tables.map (·.id)).Nodup)
    (hex : ∃ t ∈ tables, t.id = tid) :
    (seatedIds (pushToTable tables tid unit)).Perm
      (seatedIds tables ++ unit.map (·.id)) := by
  induction tables with
  | nil => rcases hex with ⟨t, ht, _⟩; cases ht
  | cons t rest ih =>
    rw [List.map_cons] at hnd
    have hnd' : (rest.map (·.id)).Nodup := (List.nodup_cons.mp hnd).2
    have hhead : t.id ∉ rest.map (·.id) := (List.nodup_cons.mp hnd).1
    by_cases h : t.id = tid
    · have hrest : ∀ t' ∈ rest, t'.id ≠ tid := fun t' ht' heq =>
        hhead (by rw [h, ← heq]; exact List.mem_map.mpr ⟨t', ht', rfl⟩)
      have hpush : pushToTable (t :: rest) tid unit =
          { t with guests := t.guests ++ unit } :: rest := by
        unfold pushToTable
        rw [List.map_cons, if_pos h]
        have := @pushToTable_eq_self rest tid unit hrest
        unfold pushToTable at this
        rw [this]
      rw [hpush]
      show ((t.guests ++ unit).map (·.id) ++ seatedIds rest).Perm
        ((t.guests.map (·.id) ++ seatedIds rest) ++ unit.map (·.id))
      rw [List.map_append, List.append_assoc, List.append_assoc]
      exact List.Perm.append_left _ List.perm_append_comm
    · have hex' : ∃ t' ∈ rest, t'.id = tid := by
        rcases hex with ⟨t', ht', heq⟩
        rcases List.mem_cons.mp ht' with rfl | hmem
        · exact absurd heq h
        · exact ⟨t', hmem, heq⟩
      have hpush : pushToTable (t :: rest) tid unit =
          t :: pushToTable rest tid unit := by
        unfold pushToTable
        rw [List.map_cons, if_neg h]
      rw [hpush]
      show (t.guests.map (·.id) ++ seatedIds (pushToTable rest tid unit)).Perm
        ((t.guests.map (·.id) ++ seatedIds rest) ++ unit.map (·.id))
      rw [List.append_assoc]
      exact List.Perm.append_left _ (ih hnd' hex')

theorem partner_id_ne {input : AlgorithmInput} {guest p : Guest}
    (hsides : ∀ c ∈ input.couples, c.guestAId ≠ c.guestBId)
    (hp : getCouplePartner guest input.couples input.guests = some p) :
    p.id ≠ guest.id := by
  unfold getCouplePartner at hp
  rcases hfind : input.couples.find?
      (fun c => c.guestAId == guest.id || c.guestBId == guest.id) with _ | c₀
  · rw [hfind] at hp; cases hp
  · rw [hfind] at hp
    simp only [] at hp
    have hc₀ : c₀ ∈ input.couples := List.mem_of_find?_eq_some hfind
    have hpred := List.find?_some hfind
    have hpid0 := List.find?_some hp
    simp only [beq_iff_eq] at hpid0
    by_cases hcase : c₀.guestAId = guest.id
    · rw [if_pos hcase] at hpid0
      rw [hpid0, ← hcase]
      exact fun heq => hsides c₀ hc₀ heq.symm
    · rw [if_neg hcase] at hpid0
      rcases Bool.or_eq_true_iff.mp hpred with h' | h'
      · exact absurd (beq_iff_eq.mp h') hcase
      · rw [hpid0, ← beq_iff_eq.mp h']
        exact fun heq => hsides c₀ hc₀ heq

theorem unitOf_nodup_fresh (input : AlgorithmInput) (st : PlaceState)
    (guest : Guest) (h : guest.id ∉ st.placed)
    (hsides : ∀ c ∈ input.couples, c.guestAId ≠ c.guestBId) :
    ((unitOf input st guest).map (·.id)).Nodup ∧
    ∀ x ∈ (unitOf input st guest).map (·.id), x ∉ st.placed := by
  unfold unitOf
  cases hp : getCouplePartner guest input.couples input.guests with
  | none => simpa using h
  | some p =>
    dsimp only
    by_cases hpp : p.id ∈ st.placed
    · rw [if_pos hpp]
      simpa using h
    · rw [if_neg hpp]
      have hne := partner_id_ne hsides hp
      refine ⟨by simp [hne.symm], ?_⟩
      intro x hx
      rcases (by simpa using hx : x = guest.id ∨ x = p.id) with rfl | rfl
      · exact h
      · exact hpp

theorem commitUnit_seatInv {bf : Bool} {st : PlaceState} {tid : Nat}
    {unit : List Guest} {ws : List Warning} {uf : Bool}
    (hnd : (st.tables.map (·.id)).Nodup)
    (hex : ∃ t ∈ st.tables, t.id = tid) (hinv : SeatInv st)
    (hund : (unit.map (·.id)).Nodup)
    (hfresh : ∀ x ∈ unit.map (·.id), x ∉ st.placed) :
    SeatInv (commitUnit bf st tid unit ws uf) := by
  have hperm := @seatedIds_pushToTable st.tables tid unit hnd hex
  constructor
  · show (seatedIds (pushToTable st.tables tid unit)).Nodup
    rw [hperm.nodup_iff, List.nodup_append]
    refine ⟨hinv.1, hund, ?_⟩
    intro x hx hx'
    exact hfresh x hx' (hinv.2 x hx)
  · show ∀ x ∈ seatedIds (pushToTable st.tables tid unit),
      x ∈ st.placed ++ unit.map (·.id)
    intro x hx
    have := hperm.mem_iff.mp hx
    rcases List.mem_append.mp this with h' | h'
    · exact List.mem_append_left _ (hinv.2 x h')
    · exact List.mem_append_right _ h'

theorem placeGuestStep_seatInv (input : AlgorithmInput) (st : PlaceState)
    (guest : Guest)
    (hsides : ∀ c ∈ input.couples, c.guestAId ≠ c.guestBId)
    (hnd : (st.tables.map (·.id)).Nodup) (hinv : SeatInv st) :
    SeatInv (placeGuestStep input st guest) := by
  refine placeGuestStep_elim input st guest SeatInv ?_ ?_ ?_ ?_
  · intro _; exact hinv
  · intro t ws h hfs
    obtain ⟨hmem, _, _, _⟩ := findSuitableTableWithFamilyPreference_some hfs
    obtain ⟨hund, hfresh⟩ := unitOf_nodup_fresh input st guest h hsides
    exact commitUnit_seatInv hnd ⟨t, hmem, rfl⟩ hinv hund hfresh
  · intro ht ws₀ h _ hfind _ _
    obtain ⟨hund, hfresh⟩ := unitOf_nodup_fresh input st guest h hsides
    exact commitUnit_seatInv hnd ⟨ht, List.mem_of_find?_eq_some hfind, rfl⟩
      hinv hund hfresh
  · intro msg _; exact hinv

theorem placeLoop_seatInv (input : AlgorithmInput)
    (hsides : ∀ c ∈ input.couples, c.guestAId ≠ c.guestBId) :
    ∀ (l : List Guest) (st : PlaceState),
      TablesInv input.configuration st.tables → SeatInv st →
      SeatInv (l.foldl (placeGuestStep input) st)
  | [], _, _, hinv => hinv
  | g :: t, st, htinv, hinv =>
    placeLoop_seatInv input hsides t _
      (placeGuestStep_tablesInv input st g htinv)
      (placeGuestStep_seatInv input st g hsides htinv.1 hinv)

theorem seatedIds_initial (input : AlgorithmInput) :
    seatedIds (initialTables input) =
      (input.guests.filter fun g => g.id ∈ honorGuestIds input).map (·.id) := by
  unfold seatedIds initialTables
  rw [List.flatMap_cons]
  have hrest : ∀ (l : List Nat),
      (l.map (regularTableInit input)).flatMap (fun t => t.guests.map (·.id)) = [] := by
    intro l
    induction l with
    | nil => rfl
    | cons a t ih => simp [regularTableInit, ih]
  rw [hrest]
  simp [honorTableInit]

theorem initial_seatInv {input : AlgorithmInput}
    (hnd : (input.guests.map (·.id)).Nodup) :
    SeatInv
      { tables := initialTables input, warnings := [],
        placed := honorGuestIds input, familyMap := [] } := by
  constructor
  · show (seatedIds (initialTables input)).Nodup
    rw [seatedIds_initial]
    exact hnd.sublist ((List.filter_sublist _).map _)
  · show ∀ x ∈ seatedIds (initialTables input), x ∈ honorGuestIds input
    rw [seatedIds_initial]
    intro x hx
    rcases List.mem_map.mp hx with ⟨g, hg, rfl⟩
    simpa using (List.mem_filter.mp hg).2

theorem seatedIds_shuffle_perm : ∀ {l l' : List Table},
    List.Forall₂ ShuffleRel l l' → (seatedIds l').Perm (seatedIds l)
  | _, _, .nil => List.Perm.refl _
  | _, _, .cons h1 t1 => by
    obtain ⟨_, _, _, _, hperm, _⟩ := h1
    exact List.Perm.append (hperm.map _) (seatedIds_shuffle_perm t1)

/-- C9: after a successful generate on well-formed input (distinct guest
ids, couples with two distinct sides), every guest id occurs at most once
across all table guest lists combined: the placed-guest set makes second
occurrences of a guest in the placement order no-ops. -/
theorem C9_no_guest_seated_twice {input : AlgorithmInput} {rand : List Nat}
    (hnd : (input.guests.map (·.id)).Nodup)
    (hsides : ∀ c ∈ input.couples, c.guestAId ≠ c.guestBId)
    (hsucc : (generateSeatingPlan input rand).success = true) :
    (seatedIds (generateSeatingPlan input rand).tables).Nodup := by
  have hval : (validateConfiguration input).isValid = true := by
    rw [← generate_success_iff]; exact hsucc
  obtain ⟨htab, _⟩ := @generate_tables_of_valid _ rand hval
  rw [htab]
  have hcore : SeatInv (generateCore input) :=
    placeLoop_seatInv input hsides _ _ (initialTables_inv hnd hval)
      (initial_seatInv hnd)
  by_cases hr : input.configuration.sortingCriteria.random
  · rw [if_pos hr]
    exact (seatedIds_shuffle_perm
      (shuffleTables_forall₂ (generateCore input).tables rand)).nodup_iff.mpr
      hcore.1
  · rw [if_neg hr]
    exact hcore.1

/-- Concrete input of the C9 witness. -/
def inputC9 : AlgorithmInput :=
  { guests := [mkGuest 1 "A" none .regular, mkGuest 2 "B" none .regular,
      mkGuest 3 "C" (some "Fam") .regular, mkGuest 4 "D" (some "Fam") .regular],
    couples := [{ id := 10, guestAId := 1, guestBId := 3 }],
    exclusions := [],
    configuration :=
      { totalGuests := 4, numberOfTables := 2, seatsPerTable := 3,
        honorTableSeats := 2,
        sortingCriteria :=
          { byFamily := true, byAge := false, byRole := false, random := false } } }

theorem C9_no_guest_seated_twice_witness :
    ((inputC9.guests.map (·.id)).Nodup ∧
      (generateSeatingPlan inputC9 []).success = true) ∧
    (seatedIds (generateSeatingPlan inputC9 []).tables).Nodup :=
  ⟨⟨by decide, by decide⟩,
    C9_no_guest_seated_twice (by decide)
      (by intro c hc; fin_cases hc <;> decide) (by decide)⟩

-- ============================================
-- PLACEMENT ORDER MEMBERSHIP
-- ============================================

theorem upsertFamily_flatten_perm (m : List (String × List Guest))
    (k : String) (g : Guest) :
    (((upsertFamily m k g).map (·.2)).flatten).Perm
      ((m.map (·.2)).flatten ++ [g]) := by
  induction m with
  | nil => simp [upsertFamily]
  | cons p rest ih =>
    rcases p with ⟨k', gs⟩
    by_cases h : k' = k
    · unfold upsertFamily
      rw [if_pos h]
      show ((gs ++ [g]) ++ ((rest.map (·.2)).flatten)).Perm
        ((gs ++ (rest.map (·.2)).flatten) ++ [g])
      rw [List.append_assoc, List.append_assoc]
      exact List.Perm.append_left _ List.perm_append_comm
    · unfold upsertFamily
      rw [if_neg h]
      show (gs ++ (((upsertFamily rest k g).map (·.2)).flatten)).Perm
        ((gs ++ (rest.map (·.2)).flatten) ++ [g])
      rw [List.append_assoc]
      exact List.Perm.append_left _ ih

theorem groupByFamily_fold_perm :
    ∀ (l : List Guest) (m : List (String × List Guest)),
      (((l.foldl (fun m g => upsertFamily m (familyGroupKey g) g) m).map
        (·.2)).flatten).Perm ((m.map (·.2)).flatten ++ l)
  | [], m => by simp
  | g :: t, m => by
    have ih := groupByFamily_fold_perm t (upsertFamily m (familyGroupKey g) g)
    have h1 := (upsertFamily_flatten_perm m (familyGroupKey g) g).append_right t
    have heq : ((m.map (·.2)).flatten ++ [g]) ++ t =
        (m.map (·.2)).flatten ++ g :: t := by
      rw [List.append_assoc]; rfl
    exact ih.trans (heq ▸ h1)

theorem groupByFamily_flatten_perm (l : List Guest) :
    ((groupByFamily l).flatten).Perm l := by
  have h := groupByFamily_fold_perm l []
  simpa [groupByFamily] using h

theorem mem_flatten_iff_of_perm {l l' : List (List Guest)} (h : l.Perm l')
    {x : Guest} : x ∈ l.flatten ↔ x ∈ l'.flatten := by
  constructor <;> intro hx <;> rcases List.mem_flatten.mp hx with ⟨gl, hgl, hxg⟩
  · exact List.mem_flatten.mpr ⟨gl, h.mem_iff.mp hgl, hxg⟩
  · exact List.mem_flatten.mpr ⟨gl, h.mem_iff.mpr hgl, hxg⟩

theorem mem_flatten_map_sort {r : Guest → Guest → Prop} [DecidableRel r] :
    ∀ {l : List (List Guest)} {x : Guest},
      x ∈ (l.map (List.insertionSort r)).flatten ↔ x ∈ l.flatten := by
  intro l x
  induction l with
  | nil => simp
  | cons a t ih =>
    show x ∈ List.insertionSort r a ++ _ ↔ x ∈ a ++ _
    rw [List.mem_append, List.mem_append,
      (List.perm_insertionSort r a).mem_iff, ih]

theorem extendMemberStep_processed_mono {input : AlgorithmInput}
    {honorIds : List Nat} {acc : List Guest × List Nat} {member : Guest}
    {x : Nat} (hx : x ∈ acc.2) :
    x ∈ (extendMemberStep input honorIds acc member).2 := by
  unfold extendMemberStep
  split
  · exact hx
  · split
    · split
      · simp [hx]
      · simp [hx]
    · simp [hx]

theorem extendMemberStep_eg_mono {input : AlgorithmInput}
    {honorIds : List Nat} {acc : List Guest × List Nat} {member : Guest}
    {y : Guest} (hy : y ∈ acc.1) :
    y ∈ (extendMemberStep input honorIds acc member).1 := by
  unfold extendMemberStep
  split
  · exact hy
  · split
    · split
      · simp [hy]
      · simp [hy]
    · simp [hy]

theorem extendMemberStep_member {input : AlgorithmInput}
    {honorIds : List Nat} (acc : List Guest × List Nat) (member : Guest) :
    member.id ∈ (extendMemberStep input honorIds acc member).2 := by
  unfold extendMemberStep
  split
  · next h => exact h
  · split
    · split
      · simp
      · simp
    · simp

theorem extendMemberStep_processed_elim {input : AlgorithmInput}
    {honorIds : List Nat} {acc : List Guest × List Nat} {member : Guest}
    {x : Nat} (hx : x ∈ (extendMemberStep input honorIds acc member).2) :
    x ∈ acc.2 ∨ ∃ y ∈ (extendMemberStep input honorIds acc member).1, y.id = x := by
  revert hx
  unfold extendMemberStep
  split
  · exact fun hx => Or.inl hx
  · split
    · next p hp =>
      split
      · intro hx
        rcases (by simpa using hx : x ∈ acc.2 ∨ x = member.id ∨ x = p.id)
          with h' | h' | h'
        · exact Or.inl h'
        · exact Or.inr ⟨member, by simp, h'.symm⟩
        · exact Or.inr ⟨p, by simp, h'.symm⟩
      · intro hx
        rcases (by simpa using hx : x ∈ acc.2 ∨ x = member.id) with h' | h'
        · exact Or.inl h'
        · exact Or.inr ⟨member, by simp, h'.symm⟩
    · intro hx
      rcases (by simpa using hx : x ∈ acc.2 ∨ x = member.id) with h' | h'
      · exact Or.inl h'
      · exact Or.inr ⟨member, by simp, h'.symm⟩

theorem extendMemberStep_eg_elim {input : AlgorithmInput}
    {honorIds : List Nat} {acc : List Guest × List Nat} {member : Guest}
    {y : Guest} (hy : y ∈ (extendMemberStep input honorIds acc member).1) :
    y ∈ acc.1 ∨ y = member ∨
      ∃ g₀, getCouplePartner g₀ input.couples input.guests = some y := by
  revert hy
  unfold extendMemberStep
  split
  · exact fun hy => Or.inl hy
  · split
    · next p hp =>
      split
      · intro hy
        rcases (by simpa using hy : y ∈ acc.1 ∨ y = member ∨ y = p)
          with h' | h' | rfl
        · exact Or.inl h'
        · exact Or.inr (Or.inl h')
        · exact Or.inr (Or.inr ⟨member, hp⟩)
      · intro hy
        rcases (by simpa using hy : y ∈ acc.1 ∨ y = member) with h' | h'
        · exact Or.inl h'
        · exact Or.inr (Or.inl h')
    · intro hy
      rcases (by simpa using hy : y ∈ acc.1 ∨ y = member) with h' | h'
      · exact Or.inl h'
      · exact Or.inr (Or.inl h')

theorem extFold_processed_mono {input : AlgorithmInput} {honorIds : List Nat} :
    ∀ (grp : List Guest) (acc : List Guest × List Nat) {x : Nat}, x ∈ acc.2 →
      x ∈ (grp.foldl (extendMemberStep input honorIds) acc).2
  | [], _, _, hx => hx
  | _ :: t, acc, _, hx =>
    extFold_processed_mono t _ (extendMemberStep_processed_mono hx)

theorem extFold_eg_mono {input : AlgorithmInput} {honorIds : List Nat} :
    ∀ (grp : List Guest) (acc : List Guest × List Nat) {y : Guest}, y ∈ acc.1 →
      y ∈ (grp.foldl (extendMemberStep input honorIds) acc).1
  | [], _, _, hy => hy
  | _ :: t, acc, _, hy =>
    extFold_eg_mono t _ (extendMemberStep_eg_mono hy)

theorem extFold_member {input : AlgorithmInput} {honorIds : List Nat} :
    ∀ (grp : List Guest) (acc : List Guest × List Nat) {m : Guest}, m ∈ grp →
      m.id ∈ (grp.foldl (extendMemberStep input honorIds) acc).2
  | g :: t, acc, m, hm => by
    rcases List.mem_cons.mp hm with rfl | hm'
    · exact extFold_processed_mono t _ (extendMemberStep_member acc m)
    · exact extFold_member t _ hm'

theorem extFold_processed_elim {input : AlgorithmInput} {honorIds : List Nat} :
    ∀ (grp : List Guest) (acc : List Guest × List Nat) {x : Nat},
      x ∈ (grp.foldl (extendMemberStep input honorIds) acc).2 →
      x ∈ acc.2 ∨ ∃ y ∈ (grp.foldl (extendMemberStep input honorIds) acc).1, y.id = x
  | [], _, _, hx => Or.inl hx
  | g :: t, acc, x, hx => by
    rcases extFold_processed_elim t _ hx with h' | ⟨y, hy, hid⟩
    · rcases extendMemberStep_processed_elim h' with h'' | ⟨y, hy, hid⟩
      · exact Or.inl h''
      · exact Or.inr ⟨y, extFold_eg_mono t _ hy, hid⟩
    · exact Or.inr ⟨y, hy, hid⟩

theorem extFold_eg_elim {input : AlgorithmInput} {honorIds : List Nat} :
    ∀ (grp : List Guest) (acc : List Guest × List Nat) {y : Guest},
      y ∈ (grp.foldl (extendMemberStep input honorIds) acc).1 →
      y ∈ acc.1 ∨ y ∈ grp ∨
        ∃ g₀, getCouplePartner g₀ input.couples input.guests = some y
  | [], _, _, hy => Or.inl hy
  | g :: t, acc, y, hy => by
    rcases extFold_eg_elim t _ hy with h' | h' | h'
    · rcases extendMemberStep_eg_elim h' with h'' | h'' | h''
      · exact Or.inl h''
      · exact Or.inr (Or.inl (h'' ▸ List.mem_cons_self ..))
      · exact Or.inr (Or.inr h'')
    · exact Or.inr (Or.inl (List.mem_cons_of_mem _ h'))
    · exact Or.inr (Or.inr h')

/-- Invariant of the outer extension fold: every processed id has a
witness among the collected groups. -/
def ExtOuterInv (acc : List (List Guest) × List Nat) : Prop :=
  ∀ n ∈ acc.2, ∃ y ∈ acc.1.flatten, y.id = n

theorem extendGroupStep_inv {input : AlgorithmInput} {honorIds : List Nat}
    {acc : List (List Guest) × List Nat} (hinv : ExtOuterInv acc)
    (grp : List Guest) :
    ExtOuterInv (extendGroupStep input honorIds acc grp) := by
  intro n hn
  unfold extendGroupStep at hn ⊢
  rcases extFold_processed_elim grp ([], acc.2) hn with h' | ⟨y, hy, hid⟩
  · obtain ⟨y, hy, hid⟩ := hinv n h'
    refine ⟨y, ?_, hid⟩
    split
    · rw [List.flatten_append]
      exact List.mem_append_left _ hy
    · exact hy
  · refine ⟨y, ?_, hid⟩
    have hlen : 0 < (grp.foldl (extendMemberStep input honorIds) ([], acc.2)).1.length :=
      List.length_pos.mpr (List.ne_nil_of_mem hy)
    rw [if_pos hlen, List.flatten_append]
    exact List.mem_append_right _ (by simpa using hy)

theorem extendGroupStep_processed_mono {input : AlgorithmInput}
    {honorIds : List Nat} {acc : List (List Guest) × List Nat}
    {grp : List Guest} {x : Nat} (hx : x ∈ acc.2) :
    x ∈ (extendGroupStep input honorIds acc grp).2 :=
  extFold_processed_mono grp ([], acc.2) hx

theorem extOuterFold_processed_mono {input : AlgorithmInput}
    {honorIds : List Nat} :
    ∀ (groups : List (List Guest)) (acc : List (List Guest) × List Nat)
      {x : Nat}, x ∈ acc.2 →
      x ∈ (groups.foldl (extendGroupStep input honorIds) acc).2
  | [], _, _, hx => hx
  | _ :: t, acc, _, hx =>
    extOuterFold_processed_mono t _ (extendGroupStep_processed_mono hx)

theorem extOuter_member {input : AlgorithmInput} {honorIds : List Nat} :
    ∀ (groups : List (List Guest)) (acc : List (List Guest) × List Nat)
      {grp : List Guest} {m : Guest}, grp ∈ groups → m ∈ grp →
      m.id ∈ (groups.foldl (extendGroupStep input honorIds) acc).2
  | g :: t, acc, grp, m, hgrp, hm => by
    rcases List.mem_cons.mp hgrp with rfl | hgrp'
    · exact extOuterFold_processed_mono t _
        (extFold_member grp ([], acc.2) hm)
    · exact extOuter_member t _ hgrp' hm

theorem extOuter_inv {input : AlgorithmInput} {honorIds : List Nat} :
    ∀ (groups : List (List Guest)) (acc : List (List Guest) × List Nat),
      ExtOuterInv acc →
      ExtOuterInv (groups.foldl (extendGroupStep input honorIds) acc)
  | [], _, hinv => hinv
  | g :: t, acc, hinv => extOuter_inv t _ (extendGroupStep_inv hinv g)

theorem extendGroupStep_flatten_elim {input : AlgorithmInput}
    {honorIds : List Nat} {acc : List (List Guest) × List Nat}
    {grp : List Guest} {y : Guest}
    (hy : y ∈ (extendGroupStep input honorIds acc grp).1.flatten) :
    y ∈ acc.1.flatten ∨ y ∈ grp ∨
      ∃ g₀, getCouplePartner g₀ input.couples input.guests = some y := by
  unfold extendGroupStep at hy
  split at hy
  · rw [List.flatten_append] at hy
    rcases List.mem_append.mp hy with h' | h'
    · exact Or.inl h'
    · have : y ∈ (grp.foldl (extendMemberStep input honorIds) ([], acc.2)).1 := by
        simpa using h'
      rcases extFold_eg_elim grp ([], acc.2) this with h'' | h'' | h''
      · cases h''
      · exact Or.inr (Or.inl h'')
      · exact Or.inr (Or.inr h'')
  · exact Or.inl hy

theorem extOuter_flatten_elim {input : AlgorithmInput} {honorIds : List Nat} :
    ∀ (groups : List (List Guest)) (acc : List (List Guest) × List Nat)
      {y : Guest},
      y ∈ (groups.foldl (extendGroupStep input honorIds) acc).1.flatten →
      y ∈ acc.1.flatten ∨ (∃ grp ∈ groups, y ∈ grp) ∨
        ∃ g₀, getCouplePartner g₀ input.couples input.guests = some y
  | [], _, _, hy => Or.inl hy
  | g :: t, acc, y, hy => by
    rcases extOuter_flatten_elim t _ hy with h' | ⟨grp, hgrp, hmem⟩ | h'
    · rcases extendGroupStep_flatten_elim h' with h'' | h'' | h''
      · exact Or.inl h''
      · exact Or.inr (Or.inl ⟨g, List.mem_cons_self .., h''⟩)
      · exact Or.inr (Or.inr h'')
    · exact Or.inr (Or.inl ⟨grp, List.mem_cons_of_mem _ hgrp, hmem⟩)
    · exact Or.inr (Or.inr h')

theorem sortGuests_mem {input : AlgorithmInput} {y : Guest} :
    y ∈ sortGuests (input.guests.filter fun g => g.id ∉ honorGuestIds input)
      input.configuration input.exclusions ↔
    y ∈ input.guests.filter fun g => g.id ∉ honorGuestIds input := by
  unfold sortGuests
  exact (List.perm_insertionSort _ _).mem_iff

/-- Every guest of the placement order is a guest of the input. -/
theorem orderedGuestsOf_sub {input : AlgorithmInput} :
    ∀ x ∈ orderedGuestsOf input, x ∈ input.guests := by
  intro x hx
  have hrem : ∀ y : Guest,
      y ∈ sortGuests (input.guests.filter fun g => g.id ∉ honorGuestIds input)
        input.configuration input.exclusions → y ∈ input.guests := fun y hy =>
    (List.mem_filter.mp (sortGuests_mem.mp hy)).1
  unfold orderedGuestsOf buildOrderedGuests at hx
  split at hx
  · rcases List.mem_append.mp hx with h | h
    · rw [mem_flatten_map_sort,
        mem_flatten_iff_of_perm (List.perm_insertionSort _ _)] at h
      rcases extOuter_flatten_elim _ ([], []) h with h1 | ⟨grp, hgrp, hmem⟩ | ⟨g₀, hp⟩
      · cases h1
      · have hgrp' : grp ∈ groupByFamily
            ((sortGuests (input.guests.filter fun g => g.id ∉ honorGuestIds input)
              input.configuration input.exclusions).filter
              fun g => !isAutoGeneratedGuest g) :=
          (List.perm_insertionSort _ _).mem_iff.mp hgrp
        have h2 : x ∈ (groupByFamily _).flatten :=
          List.mem_flatten.mpr ⟨grp, hgrp', hmem⟩
        have h3 := (groupByFamily_flatten_perm _).mem_iff.mp h2
        exact hrem x (List.mem_filter.mp h3).1
      · exact getCouplePartner_mem hp
    · exact hrem x (List.mem_filter.mp h).1
  · rcases List.mem_append.mp hx with h | h
    · have := (List.perm_insertionSort _ _).mem_iff.mp h
      exact hrem x (List.mem_filter.mp this).1
    · exact hrem x (List.mem_filter.mp h).1

/-- Every non-honor guest of the input appears in the placement order. -/
theorem orderedGuestsOf_cover {input : AlgorithmInput}
    (hnd : (input.guests.map (·.id)).Nodup) {g : Guest}
    (hg : g ∈ input.guests) (hnh : g.id ∉ honorGuestIds input) :
    g ∈ orderedGuestsOf input := by
  have hrem : g ∈ sortGuests
      (input.guests.filter fun gg => gg.id ∉ honorGuestIds input)
      input.configuration input.exclusions :=
    sortGuests_mem.mpr (List.mem_filter.mpr ⟨hg, by simpa using hnh⟩)
  unfold orderedGuestsOf buildOrderedGuests
  split
  · by_cases hauto : isAutoGeneratedGuest g
    · exact List.mem_append_right _
        (List.mem_filter.mpr ⟨hrem, by simp [hauto]⟩)
    · apply List.mem_append_left
      have hreal : g ∈ (sortGuests
          (input.guests.filter fun gg => gg.id ∉ honorGuestIds input)
          input.configuration input.exclusions).filter
          (fun gg => !isAutoGeneratedGuest gg) :=
        List.mem_filter.mpr ⟨hrem, by simp [hauto]⟩
      have h1 : g ∈ (groupByFamily _).flatten :=
        (groupByFamily_flatten_perm _).mem_iff.mpr hreal
      obtain ⟨grp, hgrp, hmem⟩ := List.mem_flatten.mp h1
      have hgrp' : grp ∈ List.insertionSort (fun a b => b.length ≤ a.length)
          (groupByFamily _) :=
        (List.perm_insertionSort _ _).mem_iff.mpr hgrp
      have hid := @extOuter_member input
        (honorGuestIds input) _ ([], []) _ _ hgrp' hmem
      obtain ⟨y, hy, hyid⟩ := extOuter_inv _ ([], [])
        (fun n hn => absurd hn (List.not_mem_nil _)) _ hid
      have hysub : y ∈ input.guests := by
        rcases extOuter_flatten_elim _ ([], []) hy with h1 | ⟨grp2, hgrp2, hm2⟩ | ⟨g₀, hp⟩
        · cases h1
        · have hgrp2' : grp2 ∈ groupByFamily _ :=
            (List.perm_insertionSort _ _).mem_iff.mp hgrp2
          have h2 : y ∈ (groupByFamily _).flatten :=
            List.mem_flatten.mpr ⟨grp2, hgrp2', hm2⟩
          have h3 := (groupByFamily_flatten_perm _).mem_iff.mp h2
          exact (List.mem_filter.mp (sortGuests_mem.mp
            (List.mem_filter.mp h3).1)).1
        · exact getCouplePartner_mem hp
      have hyg : y = g := guest_id_inj hnd hysub hg hyid
      subst hyg
      rw [mem_flatten_map_sort,
        mem_flatten_iff_of_perm (List.perm_insertionSort _ _)]
      exact hy
  · by_cases hauto : isAutoGeneratedGuest g
    · exact List.mem_append_right _
        (List.mem_filter.mpr ⟨hrem, by simp [hauto]⟩)
    · exact List.mem_append_left _
        ((List.perm_insertionSort _ _).mem_iff.mpr
          (List.mem_filter.mpr ⟨hrem, by simp [hauto]⟩))

-- ============================================
-- CLAIM C3 (couple atomicity)
-- ============================================

/-- Invariant tying one well-formed couple to the placement state: both
members are placed together or not at all, placed members share a table,
unplaced members sit at no table. -/
def CoupleInv (A B : Guest) (s : PlaceState) : Prop :=
  (A.id ∈ s.placed ↔ B.id ∈ s.placed) ∧
  (A.id ∈ s.placed → ∃ t ∈ s.tables, A ∈ t.guests ∧ B ∈ t.guests) ∧
  (A.id ∉ s.placed → ∀ t ∈ s.tables, A ∉ t.guests ∧ B ∉ t.guests)

theorem unitOf_couple_cases {input : AlgorithmInput} {c : Couple} {A B : Guest}
    (hwf : CoupleWF input c A B) {st : PlaceState} {g : Guest}
    (hg : g ∈ input.guests) (h : g.id ∉ st.placed)
    (hiff : A.id ∈ st.placed ↔ B.id ∈ st.placed) :
    (A.id ∉ (unitOf input st g).map (·.id) ∧
      B.id ∉ (unitOf input st g).map (·.id)) ∨
    (A ∈ unitOf input st g ∧ B ∈ unitOf input st g) := by
  unfold unitOf
  cases hp : getCouplePartner g input.couples input.guests with
  | none =>
    left
    constructor <;> intro hmem
    · have hid : A.id = g.id := by simpa using hmem
      have hgA : g = A := guest_id_inj hwf.nodupIds hg hwf.memA hid.symm
      subst hgA
      rw [hwf.partner_A] at hp; cases hp
    · have hid : B.id = g.id := by simpa using hmem
      have hgB : g = B := guest_id_inj hwf.nodupIds hg hwf.memB hid.symm
      subst hgB
      rw [hwf.partner_B] at hp; cases hp
  | some p =>
    dsimp only
    by_cases hpp : p.id ∈ st.placed
    · rw [if_pos hpp]
      left
      constructor <;> intro hmem
      · have hid : A.id = g.id := by simpa using hmem
        have hgA : g = A := guest_id_inj hwf.nodupIds hg hwf.memA hid.symm
        subst hgA
        rw [hwf.partner_A] at hp
        injection hp with hp
        subst hp
        exact h (hiff.mpr hpp)
      · have hid : B.id = g.id := by simpa using hmem
        have hgB : g = B := guest_id_inj hwf.nodupIds hg hwf.memB hid.symm
        subst hgB
        rw [hwf.partner_B] at hp
        injection hp with hp
        subst hp
        exact h (hiff.mp hpp)
    · rw [if_neg hpp]
      by_cases hA : A.id = g.id ∨ A.id = p.id
      · right
        rcases hA with hA | hA
        · have hgA : g = A := guest_id_inj hwf.nodupIds hg hwf.memA hA.symm
          subst hgA
          rw [hwf.partner_A] at hp
          injection hp with hp
          subst hp
          exact ⟨by simp, by simp⟩
        · have hpA : p = A := guest_id_inj hwf.nodupIds
            (getCouplePartner_mem hp) hwf.memA hA.symm
          subst hpA
          have hgid : g.id = B.id := hwf.partner_to_A hp rfl
          have hgB : g = B := guest_id_inj hwf.nodupIds hg hwf.memB hgid
          subst hgB
          exact ⟨by simp, by simp⟩
      · by_cases hB : B.id = g.id ∨ B.id = p.id
        · right
          rcases hB with hB | hB
          · have hgB : g = B := guest_id_inj hwf.nodupIds hg hwf.memB hB.symm
            subst hgB
            rw [hwf.partner_B] at hp
            injection hp with hp
            subst hp
            exact ⟨by simp, by simp⟩
          · have hpB : p = B := guest_id_inj hwf.nodupIds
              (getCouplePartner_mem hp) hwf.memB hB.symm
            subst hpB
            have hgid : g.id = A.id := hwf.partner_to_B hp rfl
            have hgA : g = A := guest_id_inj hwf.nodupIds hg hwf.memA hgid
            subst hgA
            exact ⟨by simp, by simp⟩
        · left
          push_neg at hA hB
          constructor <;> intro hmem
          · rcases (by simpa using hmem : A.id = g.id ∨ A.id = p.id) with h' | h'
            exacts [hA.1 h', hA.2 h']
          · rcases (by simpa using hmem : B.id = g.id ∨ B.id = p.id) with h' | h'
            exacts [hB.1 h', hB.2 h']

theorem commitUnit_coupleInv {input : AlgorithmInput} {c : Couple} {A B : Guest}
    (hwf : CoupleWF input c A B) {st : PlaceState} {g : Guest}
    (hg : g ∈ input.guests) (h : g.id ∉ st.placed)
    {bf : Bool} {tid : Nat} {ws : List Warning} {uf : Bool}
    (hex : ∃ t₀ ∈ st.tables, t₀.id = tid) (hinv : CoupleInv A B st) :
    CoupleInv A B (commitUnit bf st tid (unitOf input st g) ws uf) := by
  obtain ⟨hiff, hplacedT, hunplaced⟩ := hinv
  rcases unitOf_couple_cases hwf hg h hiff with ⟨hnA, hnB⟩ | ⟨hA, hB⟩
  · have hplaced' : ∀ {x : Nat}, x ∉ (unitOf input st g).map (·.id) →
        (x ∈ st.placed ++ (unitOf input st g).map (·.id) ↔ x ∈ st.placed) := by
      intro x hx
      rw [List.mem_append]
      exact ⟨fun h' => h'.resolve_right hx, Or.inl⟩
    refine ⟨?_, ?_, ?_⟩
    · show A.id ∈ st.placed ++ (unitOf input st g).map (·.id) ↔
        B.id ∈ st.placed ++ (unitOf input st g).map (·.id)
      rw [hplaced' hnA, hplaced' hnB]
      exact hiff
    · show A.id ∈ st.placed ++ (unitOf input st g).map (·.id) →
        ∃ t ∈ pushToTable st.tables tid (unitOf input st g),
          A ∈ t.guests ∧ B ∈ t.guests
      intro hAp
      obtain ⟨t, ht, hAt, hBt⟩ := hplacedT ((hplaced' hnA).mp hAp)
      obtain ⟨t', ht', hext⟩ := tablesExt_mem (pushToTable_ext st.tables tid _) ht
      obtain ⟨_, _, _, _, add, hgs⟩ := hext
      exact ⟨t', ht', by rw [hgs]; exact List.mem_append_left _ hAt,
        by rw [hgs]; exact List.mem_append_left _ hBt⟩
    · show A.id ∉ st.placed ++ (unitOf input st g).map (·.id) →
        ∀ t ∈ pushToTable st.tables tid (unitOf input st g),
          A ∉ t.guests ∧ B ∉ t.guests
      intro hAp t' ht'
      have hAp' : A.id ∉ st.placed := fun h' => hAp (List.mem_append_left _ h')
      obtain ⟨t, ht, heq⟩ := pushToTable_mem ht'
      have hold := hunplaced hAp' t ht
      constructor
      · intro hmem
        rw [heq] at hmem
        by_cases hc : t.id = tid
        · rw [if_pos hc] at hmem
          rcases List.mem_append.mp (by simpa using hmem :
              A ∈ t.guests ++ unitOf input st g) with h'' | h''
          · exact hold.1 h''
          · exact hnA (List.mem_map.mpr ⟨A, h'', rfl⟩)
        · rw [if_neg hc] at hmem
          exact hold.1 hmem
      · intro hmem
        rw [heq] at hmem
        by_cases hc : t.id = tid
        · rw [if_pos hc] at hmem
          rcases List.mem_append.mp (by simpa using hmem :
              B ∈ t.guests ++ unitOf input st g) with h'' | h''
          · exact hold.2 h''
          · exact hnB (List.mem_map.mpr ⟨B, h'', rfl⟩)
        · rw [if_neg hc] at hmem
          exact hold.2 hmem
  · have hA' : A.id ∈ st.placed ++ (unitOf input st g).map (·.id) :=
      List.mem_append_right _ (List.mem_map.mpr ⟨A, hA, rfl⟩)
    have hB' : B.id ∈ st.placed ++ (unitOf input st g).map (·.id) :=
      List.mem_append_right _ (List.mem_map.mpr ⟨B, hB, rfl⟩)
    refine ⟨⟨fun _ => hB', fun _ => hA'⟩, ?_, ?_⟩
    · intro _
      obtain ⟨t₀, ht₀, rfl⟩ := hex
      refine ⟨{ t₀ with guests := t₀.guests ++ unitOf input st g },
        List.mem_map.mpr ⟨t₀, ht₀, by rw [if_pos rfl]⟩, ?_, ?_⟩
      · exact List.mem_append_right _ hA
      · exact List.mem_append_right _ hB
    · intro hAp
      exact absurd hA' hAp

theorem placeGuestStep_coupleInv {input : AlgorithmInput} {c : Couple}
    {A B : Guest} (hwf : CoupleWF input c A B) {st : PlaceState} {g : Guest}
    (hg : g ∈ input.guests) (hinv : CoupleInv A B st) :
    CoupleInv A B (placeGuestStep input st g) := by
  refine placeGuestStep_elim input st g (CoupleInv A B) ?_ ?_ ?_ ?_
  · intro _; exact hinv
  · intro t ws h hfs
    obtain ⟨hmem, _, _, _⟩ := findSuitableTableWithFamilyPreference_some hfs
    exact commitUnit_coupleInv hwf hg h ⟨t, hmem, rfl⟩ hinv
  · intro ht ws₀ h _ hfind _ _
    exact commitUnit_coupleInv hwf hg h
      ⟨ht, List.mem_of_find?_eq_some hfind, rfl⟩ hinv
  · intro msg _; exact hinv

theorem placeLoop_coupleInv {input : AlgorithmInput} {c : Couple} {A B : Guest}
    (hwf : CoupleWF input c A B) :
    ∀ (l : List Guest) (st : PlaceState), (∀ x ∈ l, x ∈ input.guests) →
      CoupleInv A B st → CoupleInv A B (l.foldl (placeGuestStep input) st)
  | [], _, _, hinv => hinv
  | g :: t, st, hsub, hinv =>
    placeLoop_coupleInv hwf t _
      (fun x hx => hsub x (List.mem_cons_of_mem _ hx))
      (placeGuestStep_coupleInv hwf (hsub g (List.mem_cons_self ..)) hinv)

theorem initial_coupleInv {input : AlgorithmInput} {c : Couple} {A B : Guest}
    (hwf : CoupleWF input c A B) :
    CoupleInv A B
      { tables := initialTables input, warnings := [],
        placed := honorGuestIds input, familyMap := [] } := by
  refine ⟨⟨fun h => hwf.honorIds_to h, fun h => hwf.honorIds_from h⟩, ?_, ?_⟩
  · intro hA
    refine ⟨honorTableInit input, by unfold initialTables; exact List.mem_cons_self .., ?_, ?_⟩
    · exact List.mem_filter.mpr ⟨hwf.memA, by simpa using hA⟩
    · exact List.mem_filter.mpr ⟨hwf.memB, by simpa using hwf.honorIds_to hA⟩
  · intro hA t ht
    have hB : B.id ∉ honorGuestIds input := fun h' => hA (hwf.honorIds_from h')
    unfold initialTables at ht
    rcases List.mem_cons.mp ht with rfl | ht'
    · constructor
      · intro hmem
        exact hA (by simpa using (List.mem_filter.mp hmem).2)
      · intro hmem
        exact hB (by simpa using (List.mem_filter.mp hmem).2)
    · rcases List.mem_map.mp ht' with ⟨i, _, rfl⟩
      constructor <;> simp [regularTableInit]

theorem unitOf_eq_pair {input : AlgorithmInput} {c : Couple} {A B : Guest}
    (hwf : CoupleWF input c A B) {st : PlaceState}
    (hB : B.id ∉ st.placed) : unitOf input st A = [A, B] := by
  unfold unitOf
  rw [hwf.partner_A]
  dsimp only
  rw [if_neg hB]

theorem placeLoop_couple_final {input : AlgorithmInput} {c : Couple}
    {A B : Guest} (hwf : CoupleWF input c A B) :
    ∀ (l : List Guest) (st : PlaceState), (∀ x ∈ l, x ∈ input.guests) →
      CoupleInv A B st →
      (A ∈ l ∨ A.id ∈ st.placed ∨
        ∃ w ∈ st.warnings, A.id ∈ w.guestIds ∧ B.id ∈ w.guestIds) →
      A.id ∈ (l.foldl (placeGuestStep input) st).placed ∨
        ∃ w ∈ (l.foldl (placeGuestStep input) st).warnings,
          A.id ∈ w.guestIds ∧ B.id ∈ w.guestIds
  | [], st, _, _, hpre => by
    rcases hpre with h | h | h
    · cases h
    · exact Or.inl h
    · exact Or.inr h
  | g :: t, st, hsub, hinv, hpre => by
    have hsub' : ∀ x ∈ t, x ∈ input.guests := fun x hx =>
      hsub x (List.mem_cons_of_mem _ hx)
    have hinv' : CoupleInv A B (placeGuestStep input st g) :=
      placeGuestStep_coupleInv hwf (hsub g (List.mem_cons_self ..)) hinv
    apply placeLoop_couple_final hwf t _ hsub' hinv'
    rcases hpre with hmem | hplaced | ⟨w, hw, hws⟩
    · rcases List.mem_cons.mp hmem with rfl | hmem'
      · right
        by_cases hAp : A.id ∈ st.placed
        · left
          exact (placeGuestStep_step input st A).2.2 _ hAp
        · have hBp : B.id ∉ st.placed := fun h' => hAp (hinv.1.mpr h')
          have hunit := unitOf_eq_pair hwf hBp
          refine placeGuestStep_elim input st A
            (fun s => A.id ∈ s.placed ∨
              ∃ w ∈ s.warnings, A.id ∈ w.guestIds ∧ B.id ∈ w.guestIds)
            ?_ ?_ ?_ ?_
          · intro h'; exact absurd h' hAp
          · intro t₀ ws _ _
            left
            show A.id ∈ st.placed ++ (unitOf input st A).map (·.id)
            rw [hunit]
            simp
          · intro ht₀ ws₀ _ _ _ _ _
            left
            show A.id ∈ st.placed ++ (unitOf input st A).map (·.id)
            rw [hunit]
            simp
          · intro msg _
            right
            refine ⟨_, List.mem_append_right _ (List.mem_singleton.mpr rfl), ?_, ?_⟩
            · show A.id ∈ (unitOf input st A).map (·.id)
              rw [hunit]; simp
            · show B.id ∈ (unitOf input st A).map (·.id)
              rw [hunit]; simp
      · exact Or.inl hmem'
    · right; left
      exact (placeGuestStep_step input st g).2.2 _ hplaced
    · right; right
      obtain ⟨ws', hws'⟩ := (placeGuestStep_step input st g).2.1
      exact ⟨w, by rw [hws']; exact List.mem_append_left _ hw, hws⟩

/-- C3: after a successful generate on a well-formed couple (both members
are guests, distinct, belonging to no other couple, with unique guest
ids), either both members sit at the same table of the result, or
neither sits anywhere and some warning names both of them. -/
theorem C3_couple_atomicity {input : AlgorithmInput} {rand : List Nat}
    {c : Couple} {A B : Guest} (hwf : CoupleWF input c A B)
    (hsucc : (generateSeatingPlan input rand).success = true) :
    (∃ t ∈ (generateSeatingPlan input rand).tables,
      A ∈ t.guests ∧ B ∈ t.guests) ∨
    ((∀ t ∈ (generateSeatingPlan input rand).tables,
      A ∉ t.guests ∧ B ∉ t.guests) ∧
      ∃ w ∈ (generateSeatingPlan input rand).warnings,
        A.id ∈ w.guestIds ∧ B.id ∈ w.guestIds) := by
  have hval : (validateConfiguration input).isValid = true := by
    rw [← generate_success_iff]; exact hsucc
  obtain ⟨htab, hwarn⟩ := @generate_tables_of_valid _ rand hval
  have hsub : ∀ x ∈ orderedGuestsOf input, x ∈ input.guests :=
    orderedGuestsOf_sub
  have hcoreInv : CoupleInv A B (generateCore input) :=
    placeLoop_coupleInv hwf _ _ hsub (initial_coupleInv hwf)
  have hpre : A ∈ orderedGuestsOf input ∨ A.id ∈ honorGuestIds input ∨
      ∃ w ∈ ([] : List Warning), A.id ∈ w.guestIds ∧ B.id ∈ w.guestIds := by
    by_cases hA0 : A.id ∈ honorGuestIds input
    · exact Or.inr (Or.inl hA0)
    · exact Or.inl (orderedGuestsOf_cover hwf.nodupIds hwf.memA hA0)
  have hfin := placeLoop_couple_final hwf (orderedGuestsOf input)
    { tables := initialTables input, warnings := [],
      placed := honorGuestIds input, familyMap := [] }
    hsub (initial_coupleInv hwf) hpre
  by_cases hAp : A.id ∈ (generateCore input).placed
  · left
    obtain ⟨t, ht, hAt, hBt⟩ := hcoreInv.2.1 hAp
    rw [htab]
    by_cases hr : input.configuration.sortingCriteria.random
    · rw [if_pos hr]
      obtain ⟨t', ht', hrel⟩ :=
        forall₂_mem_left (shuffleTables_forall₂ (generateCore input).tables rand) ht
      obtain ⟨_, _, _, _, hperm, _⟩ := hrel
      exact ⟨t', ht', hperm.mem_iff.mpr hAt, hperm.mem_iff.mpr hBt⟩
    · rw [if_neg hr]
      exact ⟨t, ht, hAt, hBt⟩
  · right
    constructor
    · rw [htab]
      by_cases hr : input.configuration.sortingCriteria.random
      · rw [if_pos hr]
        intro t' ht'
        obtain ⟨t, ht, hrel⟩ := forall₂_mem_right
          (shuffleTables_forall₂ (generateCore input).tables rand) ht'
        obtain ⟨_, _, _, _, hperm, _⟩ := hrel
        have hold := hcoreInv.2.2 hAp t ht
        exact ⟨fun h' => hold.1 (hperm.mem_iff.mp h'),
          fun h' => hold.2 (hperm.mem_iff.mp h')⟩
      · rw [if_neg hr]
        exact hcoreInv.2.2 hAp
    · rw [hwarn]
      rcases hfin with h | h
      · exact absurd h hAp
      · exact h

/-- Concrete input of the C3 witness. -/
def inputC3 : AlgorithmInput :=
  { guests := [mkGuest 1 "A" none .regular, mkGuest 2 "B" none .regular,
      mkGuest 3 "C" none .regular],
    couples := [{ id := 10, guestAId := 1, guestBId := 2 }],
    exclusions := [],
    configuration :=
      { totalGuests := 3, numberOfTables := 2, seatsPerTable := 2,
        honorTableSeats := 2, sortingCriteria := critNone } }

theorem C3_couple_atomicity_witness :
    (CoupleWF inputC3 { id := 10, guestAId := 1, guestBId := 2 }
      (mkGuest 1 "A" none .regular) (mkGuest 2 "B" none .regular) ∧
      (generateSeatingPlan inputC3 []).success = true) ∧
    ((∃ t ∈ (generateSeatingPlan inputC3 []).tables,
      mkGuest 1 "A" none .regular ∈ t.guests ∧
      mkGuest 2 "B" none .regular ∈ t.guests) ∨
    ((∀ t ∈ (generateSeatingPlan inputC3 []).tables,
      mkGuest 1 "A" none .regular ∉ t.guests ∧
      mkGuest 2 "B" none .regular ∉ t.guests) ∧
      ∃ w ∈ (generateSeatingPlan inputC3 []).warnings,
        (mkGuest 1 "A" none .regular).id ∈ w.guestIds ∧
        (mkGuest 2 "B" none .regular).id ∈ w.guestIds)) := by
  have hwf : CoupleWF inputC3 { id := 10, guestAId := 1, guestBId := 2 }
      (mkGuest 1 "A" none .regular) (mkGuest 2 "B" none .regular) := by
    refine ⟨?_, ?_, ?_, ?_, ?_, ?_, ?_, ?_⟩ <;> decide
  exact ⟨⟨hwf, by decide⟩, C3_couple_atomicity hwf (by decide)⟩

end PlanTable
